import Mathlib

/-!
Verification development for the csa-multi-client-chart repository.

This file shallowly embeds the data-derivation and range-selection pipeline of
the chart prototype:

* the brush controller's drag-move arithmetic
  (src/components/ExternalBrush.tsx, onMouseMove, lines 177-208);
* the brush's initialization and handle-label index access
  (ExternalBrush.tsx lines 117-127 and labelForIndex, lines 229-240);
* the two record parsers parseTSV / parseCSV
  (src/components/MultiDeviceLatencyChart.tsx, lines 127-187);
* the sparse-device synthesizer augmentRowsForSparseDevices together with
  hashStringToUnit (MultiDeviceLatencyChart.tsx, lines 190-268);
* the outage detector outageRanges (lines 421-447);
* the band classifier slicedDataBanded with its quantile helper
  (lines 344-355, 399-415, 450-484).

Modelling conventions.  JavaScript numbers are modelled as JsNum: an exact
rational for finite doubles plus the three non-finite values (the decimal
literals of the source are exact rationals in the model; no settled claim
depends on double rounding).  JavaScript row objects are modelled as an
insertion-ordered association list of string keys (Row.cells) plus the
timestamp key x.  A timestamp ISO string produced by toISOString is in
bijection with its millisecond value, so the model keys rows by that integer
directly.  Runtime primitives that are not code of this repository are
either implemented as documented models (date parsing of the strict
YYYY-MM-DDTHH:MM:SSZ layout, the Number coercion of plain decimal strings)
or taken as parameters (Math.sin and Math.PI, which no settled claim
depends on numerically).
-/

/-!
Rational arithmetic is routed through the normalizing constructor mkRat,
which the kernel evaluates, so that concrete runs of the models reduce
under decide; the lemmas right below identify these operations with the
field operations of the rationals.
-/

def qAdd (a b : ℚ) : ℚ :=
  mkRat (a.num * b.den + b.num * a.den) (a.den * b.den)

def qMul (a b : ℚ) : ℚ :=
  mkRat (a.num * b.num) (a.den * b.den)

def qSub (a b : ℚ) : ℚ :=
  mkRat (a.num * b.den - b.num * a.den) (a.den * b.den)

def qInv (b : ℚ) : ℚ :=
  if b.num < 0 then mkRat (-(b.den : Int)) b.num.natAbs
  else mkRat (b.den : Int) b.num.natAbs

def qDiv (a b : ℚ) : ℚ :=
  qMul a (qInv b)

theorem qAdd_eq (a b : ℚ) : qAdd a b = a + b :=
  (Rat.add_def' a b).symm

theorem qSub_eq (a b : ℚ) : qSub a b = a - b :=
  (Rat.sub_def' a b).symm

theorem qMul_eq (a b : ℚ) : qMul a b = a * b := by
  rw [Rat.mul_def, Rat.normalize_eq_mkRat, qMul]

theorem qInv_eq (b : ℚ) : qInv b = b⁻¹ := by
  show qInv b = b.inv
  rw [Rat.inv_def, qInv]
  cases hn : b.num with
  | ofNat m =>
      have : ¬ (Int.ofNat m < 0) := Int.not_lt.mpr (Int.ofNat_nonneg m)
      simp only [this, if_false]
      cases m <;> simp [Rat.divInt, Int.natAbs, mkRat]
  | negSucc m =>
      have : Int.negSucc m < 0 := Int.negSucc_lt_zero m
      simp only [this, if_true]
      simp [Rat.divInt, Int.natAbs, mkRat]

theorem qDiv_eq (a b : ℚ) : qDiv a b = a / b := by
  rw [qDiv, qMul_eq, qInv_eq, div_eq_mul_inv]

/-- Model of a JavaScript number: an exact rational for a finite double,
or one of the three non-finite values. -/
inductive JsNum where
  | fin (q : ℚ)
  | inf
  | negInf
  | nan
deriving DecidableEq

/-- Model of Number.isNaN. -/
def JsNum.isNaN : JsNum → Bool
  | .nan => true
  | _ => false

/-- Addition of JavaScript numbers (IEEE special-value propagation). -/
def JsNum.add : JsNum → JsNum → JsNum
  | .fin a, .fin b => .fin (qAdd a b)
  | .nan, _ => .nan
  | _, .nan => .nan
  | .inf, .negInf => .nan
  | .negInf, .inf => .nan
  | .inf, _ => .inf
  | _, .inf => .inf
  | .negInf, _ => .negInf
  | _, .negInf => .negInf

/-- Multiplication of JavaScript numbers (IEEE special-value propagation). -/
def JsNum.mul : JsNum → JsNum → JsNum
  | .fin a, .fin b => .fin (qMul a b)
  | .nan, _ => .nan
  | _, .nan => .nan
  | .inf, .inf => .inf
  | .inf, .negInf => .negInf
  | .negInf, .inf => .negInf
  | .negInf, .negInf => .inf
  | .inf, .fin b => if b > 0 then .inf else if b < 0 then .negInf else .nan
  | .fin a, .inf => if a > 0 then .inf else if a < 0 then .negInf else .nan
  | .negInf, .fin b => if b > 0 then .negInf else if b < 0 then .inf else .nan
  | .fin a, .negInf => if a > 0 then .negInf else if a < 0 then .inf else .nan

/-- Model of Math.min on two arguments (NaN-propagating). -/
def JsNum.jsMin : JsNum → JsNum → JsNum
  | .nan, _ => .nan
  | _, .nan => .nan
  | .negInf, _ => .negInf
  | _, .negInf => .negInf
  | .inf, b => b
  | a, .inf => a
  | .fin a, .fin b => .fin (if a ≤ b then a else b)

/-- Model of Math.max on two arguments (NaN-propagating). -/
def JsNum.jsMax : JsNum → JsNum → JsNum
  | .nan, _ => .nan
  | _, .nan => .nan
  | .inf, _ => .inf
  | _, .inf => .inf
  | .negInf, b => b
  | a, .negInf => a
  | .fin a, .fin b => .fin (if a ≤ b then b else a)

/-- Model of the JavaScript comparison a less-or-equal b
(false whenever either side is NaN). -/
def JsNum.leB : JsNum → JsNum → Bool
  | .nan, _ => false
  | _, .nan => false
  | .negInf, _ => true
  | _, .negInf => false
  | _, .inf => true
  | .inf, _ => false
  | .fin a, .fin b => decide (a ≤ b)

/-- Model of a JavaScript value as it occurs in a parsed row: a number,
a string, or null. -/
inductive JsVal where
  | num (n : JsNum)
  | str (s : String)
  | null
deriving DecidableEq

/-- Model of a parsed per-timestamp record.  The timestamp key x is kept as
the millisecond value of the ISO string (toISOString output is in bijection
with that integer).  All other own keys of the object live in cells, in
insertion order, exactly as JavaScript object keys do. -/
structure Row where
  x : Int
  cells : List (String × JsVal)
deriving DecidableEq

/-- Lookup of an own key of a row object; none models undefined. -/
def Row.get? (r : Row) (k : String) : Option JsVal :=
  match r.cells.find? (fun p => p.1 = k) with
  | some p => some p.2
  | none => none

/-- Property assignment on a row object: update in place when the key exists
(keeping insertion order), otherwise append the key. -/
def setAssoc (k : String) (v : JsVal) : List (String × JsVal) → List (String × JsVal)
  | [] => [(k, v)]
  | (k', v') :: t => if k' = k then (k', v) :: t else (k', v') :: setAssoc k v t

/-- Property assignment on a row. -/
def Row.set (r : Row) (k : String) (v : JsVal) : Row :=
  { r with cells := setAssoc k v r.cells }

/-- Model of Object.prototype.hasOwnProperty.call(row, k). -/
def Row.hasKey (r : Row) (k : String) : Bool :=
  (r.get? k).isSome

/-- The cell of record number i for device key id in a record sequence;
none models both a missing record and a missing key. -/
def cellAt (rows : List Row) (i : Nat) (id : String) : Option JsVal :=
  match rows[i]? with
  | some r => r.get? id
  | none => none

/-- Model of the isNumeric helper of MultiDeviceLatencyChart.tsx
(lines 191 and 424): typeof v is number and v is not NaN.  Note Infinity
passes this test. -/
def isNumeric : Option JsVal → Bool
  | some (.num n) => !n.isNaN
  | _ => false

/-- Decidable equality of results, used to evaluate the models on concrete
inputs. -/
instance {e a : Type} [DecidableEq e] [DecidableEq a] : DecidableEq (Except e a)
  | .error x, .error y =>
      if h : x = y then .isTrue (by rw [h]) else .isFalse (by simp [h])
  | .error _, .ok _ => .isFalse (by simp)
  | .ok _, .error _ => .isFalse (by simp)
  | .ok x, .ok y =>
      if h : x = y then .isTrue (by rw [h]) else .isFalse (by simp [h])

/-! ### Brush controller (src/components/ExternalBrush.tsx) -/

/-- Model of the clamp utility of ExternalBrush.tsx line 14:
Math.min(Math.max(value, lo), hi).  When lo exceeds hi the result is hi,
exactly as in JavaScript. -/
def clamp (value lo hi : Int) : Int :=
  min (max value lo) hi

/-- The local selection state of the brush (localStart, localEnd). -/
structure BrushState where
  s : Int
  en : Int
deriving DecidableEq

/-- One pointer-move event while a drag is active.  The payload is the data
index the pointer position maps to through indexFromPx (for the left and
right handles), or the offset-adjusted anchor index for a whole-range drag.
indexFromPx always lands in [0, total-1]; the model quantifies over
arbitrary integers, a superset. -/
inductive DragEvent where
  | left (target : Int)
  | right (target : Int)
  | range (anchor : Int)
deriving DecidableEq

/-- Model of one execution of onMouseMove (ExternalBrush.tsx lines 177-208)
while dragging: the new (localStart, localEnd) pair, which is also what the
onChange callback reports. -/
def onMouseMoveStep (total minSel maxSel : Int) (st : BrushState) : DragEvent → BrushState
  | .left target =>
      let maxW := max minSel maxSel
      let minLeft := max 0 (st.en - maxW)
      let maxLeft := st.en - minSel
      { s := clamp target minLeft maxLeft, en := st.en }
  | .right target =>
      let maxW := max minSel maxSel
      let minRight := st.s + minSel
      let maxRight := min (total - 1) (st.s + maxW)
      { s := st.s, en := clamp target minRight maxRight }
  | .range anchor =>
      let maxW := max minSel maxSel
      let width := clamp (st.en - st.s) minSel maxW
      let s' := clamp anchor 0 (max 0 (total - 1 - width))
      { s := s', en := s' + width }

/-- A whole sequence of drag-move events processed by the brush controller. -/
def brushRun (total minSel maxSel : Int) (init : BrushState) (evs : List DragEvent) : BrushState :=
  evs.foldl (onMouseMoveStep total minSel maxSel) init

/-- The selection invariant the drag arithmetic actually maintains:
the selection starts at a nonnegative index, spans at least minSel and at
most maxSel index steps, and ends inside the dataset. -/
def BrushInv (total minSel maxSel : Int) (st : BrushState) : Prop :=
  0 ≤ st.s ∧ st.s + minSel ≤ st.en ∧ st.en - st.s ≤ maxSel ∧ st.en ≤ total - 1

instance (total minSel maxSel : Int) (st : BrushState) :
    Decidable (BrushInv total minSel maxSel st) := by
  unfold BrushInv; infer_instance

theorem brushInv_step (total minSel maxSel : Int) (st : BrushState) (ev : DragEvent)
    (_hmin : 0 ≤ minSel) (hle : minSel ≤ maxSel)
    (h : BrushInv total minSel maxSel st) :
    BrushInv total minSel maxSel (onMouseMoveStep total minSel maxSel st ev) := by
  obtain ⟨h1, h2, h3, h4⟩ := h
  cases ev <;>
    · simp only [onMouseMoveStep, BrushInv, clamp, min_def, max_def]
      split_ifs <;> omega

theorem brushInv_run (total minSel maxSel : Int) (init : BrushState) (evs : List DragEvent)
    (hmin : 0 ≤ minSel) (hle : minSel ≤ maxSel)
    (h : BrushInv total minSel maxSel init) :
    BrushInv total minSel maxSel (brushRun total minSel maxSel init evs) := by
  induction evs generalizing init with
  | nil => exact h
  | cons ev evs ih =>
      exact ih _ (brushInv_step total minSel maxSel init ev hmin hle h)

/-- C1 counterexample: with the exact parameters the chart mounts the brush
with (minSelectionPoints = 6, maxSelectionPoints = 360) on a 500-record
dataset, whose initial selection is (0, 167), a single right-handle drag to
the far end yields the selection (0, 360).  Its width counted as
right - left + 1 is 361, which exceeds maxSelectionPoints = 360, so the
claimed bound width ∈ [minSelectionPoints, maxSelectionPoints] fails: the
code clamps the index difference right - left, not the point count. -/
theorem c1_width_counterexample :
    brushRun 500 6 360 ⟨0, 167⟩ [DragEvent.right 499] = ⟨0, 360⟩ ∧
    ¬ ((brushRun 500 6 360 ⟨0, 167⟩ [DragEvent.right 499]).en -
        (brushRun 500 6 360 ⟨0, 167⟩ [DragEvent.right 499]).s + 1 ≤ 360) := by
  refine ⟨by decide, by decide⟩

/-- C1 amended: for every sequence of drag-move events processed by the
brush controller, starting from a selection satisfying 0 ≤ left,
left + minSelectionPoints ≤ right ≤ total - 1 and
right - left ≤ maxSelectionPoints (with 0 ≤ minSelectionPoints ≤
maxSelectionPoints), the resulting selection always satisfies left ≤ right,
and the index difference right - left (that is, width - 1) stays within
[minSelectionPoints, maxSelectionPoints]. -/
theorem c1_brush_drag_invariant (total minSel maxSel : Int) (init : BrushState)
    (evs : List DragEvent)
    (hmin : 0 ≤ minSel) (hle : minSel ≤ maxSel)
    (hinv : BrushInv total minSel maxSel init) :
    (brushRun total minSel maxSel init evs).s ≤ (brushRun total minSel maxSel init evs).en ∧
    minSel ≤ (brushRun total minSel maxSel init evs).en -
      (brushRun total minSel maxSel init evs).s ∧
    (brushRun total minSel maxSel init evs).en -
      (brushRun total minSel maxSel init evs).s ≤ maxSel := by
  obtain ⟨h1, h2, h3, h4⟩ := brushInv_run total minSel maxSel init evs hmin hle hinv
  omega

/-- Witness for c1_brush_drag_invariant at concrete inputs: the chart's
actual parameters and a three-event drag sequence. -/
theorem c1_brush_drag_invariant_witness :
    (0 : Int) ≤ 6 ∧ (6 : Int) ≤ 360 ∧ BrushInv 500 6 360 ⟨0, 167⟩ ∧
    ((brushRun 500 6 360 ⟨0, 167⟩
        [DragEvent.right 499, DragEvent.left 0, DragEvent.range 100]).s ≤
      (brushRun 500 6 360 ⟨0, 167⟩
        [DragEvent.right 499, DragEvent.left 0, DragEvent.range 100]).en ∧
    (6 : Int) ≤ (brushRun 500 6 360 ⟨0, 167⟩
        [DragEvent.right 499, DragEvent.left 0, DragEvent.range 100]).en -
      (brushRun 500 6 360 ⟨0, 167⟩
        [DragEvent.right 499, DragEvent.left 0, DragEvent.range 100]).s ∧
    (brushRun 500 6 360 ⟨0, 167⟩
        [DragEvent.right 499, DragEvent.left 0, DragEvent.range 100]).en -
      (brushRun 500 6 360 ⟨0, 167⟩
        [DragEvent.right 499, DragEvent.left 0, DragEvent.range 100]).s ≤ 360) :=
  ⟨by decide, by decide, by decide,
    c1_brush_drag_invariant 500 6 360 ⟨0, 167⟩
      [DragEvent.right 499, DragEvent.left 0, DragEvent.range 100]
      (by decide) (by decide) (by decide)⟩

/-! ### String utilities modelling the JavaScript splitting primitives -/

/-- The whitespace class of the string-trim and header-split operations. -/
def jsWhitespace (c : Char) : Bool :=
  c = ' ' || c = '\t' || c = '\n' || c = '\r' || c = '\x0b' || c = '\x0c'

def trimChars (l : List Char) : List Char :=
  ((l.dropWhile jsWhitespace).reverse.dropWhile jsWhitespace).reverse

/-- Model of String.prototype.trim. -/
def strTrim (s : String) : String :=
  String.mk (trimChars s.data)

def trimLeftChars (l : List Char) : List Char :=
  l.dropWhile jsWhitespace

def trimRightChars (l : List Char) : List Char :=
  (l.reverse.dropWhile jsWhitespace).reverse

/-- ASCII lowercasing of one character, as toLowerCase performs on the
inputs of this development. -/
def lowerChar (c : Char) : Char :=
  if 'A' ≤ c && c ≤ 'Z' then Char.ofNat (c.toNat + 32) else c

def lowerStr (s : String) : String :=
  String.mk (s.data.map lowerChar)

/-- Split on every occurrence of one character, keeping empty pieces. -/
def splitCharGo (sep : Char) : List Char → List Char → List String
  | [], acc => [String.mk acc.reverse]
  | c :: rest, acc =>
      if c = sep then String.mk acc.reverse :: splitCharGo sep rest []
      else splitCharGo sep rest (c :: acc)

def splitChar (sep : Char) (s : String) : List String :=
  splitCharGo sep s.data []

/-- Splitting a text into lines, modelling String.prototype.split with the
line pattern of the parsers: a newline optionally preceded by a carriage
return is a separator; a lone carriage return is ordinary text. -/
def splitLinesGo : List Char → List Char → List String
  | [], acc => [String.mk acc.reverse]
  | '\r' :: '\n' :: rest, acc => String.mk acc.reverse :: splitLinesGo rest []
  | '\n' :: rest, acc => String.mk acc.reverse :: splitLinesGo rest []
  | c :: rest, acc => splitLinesGo rest (c :: acc)

def splitLines (s : String) : List String :=
  splitLinesGo s.data []

/-- Dropping the empty pieces that sit strictly between two separators,
keeping the first and last pieces.  Composing this with a single-character
split yields the split on maximal runs of that character. -/
def dropInnerEmptiesTail : List String → List String
  | [] => []
  | [a] => [a]
  | a :: rest => if a = "" then dropInnerEmptiesTail rest else a :: dropInnerEmptiesTail rest

def dropInnerEmpties : List String → List String
  | [] => []
  | [a] => [a]
  | a :: rest => a :: dropInnerEmptiesTail rest

/-- Model of line.split on one-or-more tab characters (parseTSV line 132):
maximal runs of tabs separate the fields; a leading or trailing run
contributes an empty leading or trailing field, exactly as in JavaScript. -/
def splitTabs (line : String) : List String :=
  dropInnerEmpties (splitChar '\t' line)

/-- Model of the naive CSV field split of parseCSV line 169: a comma is a
separator exactly when it is followed by an even number of double quotes. -/
def csvSplitGo : List Char → List Char → List String
  | [], acc => [String.mk acc.reverse]
  | ',' :: rest, acc =>
      if (rest.count '"') % 2 = 0 then String.mk acc.reverse :: csvSplitGo rest []
      else csvSplitGo rest (',' :: acc)
  | c :: rest, acc => csvSplitGo rest (c :: acc)

def csvSplit (line : String) : List String :=
  csvSplitGo line.data []

/-- Model of the header split of parseCSV line 152: a comma together with
the whitespace adjacent to it separates the header cells; whitespace at the
very start or end of the line is kept. -/
def headerSplit (s : String) : List String :=
  let toks := splitChar ',' s
  let n := toks.length
  toks.mapIdx (fun i tk =>
    let tk := if 0 < i then String.mk (trimLeftChars tk.data) else tk
    if i + 1 < n then String.mk (trimRightChars tk.data) else tk)

/-- Dropping one trailing double quote, when present. -/
def dropTrailingQuote (l : List Char) : List Char :=
  match l.reverse with
  | '"' :: t => t.reverse
  | _ => l

/-- Model of field.replace of one leading and one trailing double quote
(parseCSV lines 152 and 171-175): at most one quote is removed at each end,
and a lone quote counts as leading. -/
def stripQuotes (s : String) : String :=
  match s.data with
  | '"' :: t => String.mk (dropTrailingQuote t)
  | l => String.mk (dropTrailingQuote l)

/-- Replacement of the first space by a capital T
(timeStr.replace of parseTSV line 135 / parseCSV line 177). -/
def replaceFirstSpace : List Char → List Char
  | [] => []
  | ' ' :: rest => 'T' :: rest
  | c :: rest => c :: replaceFirstSpace rest

/-- Containment of pat as a prefix of l. -/
def startsWithList : List Char → List Char → Bool
  | [], _ => true
  | _ :: _, [] => false
  | p :: ps, c :: cs => p = c && startsWithList ps cs

/-- Containment of pat as a contiguous substring of l, modelling an
unanchored regular-expression test on a literal alternative. -/
def containsSub (pat : List Char) : List Char → Bool
  | [] => startsWithList pat []
  | c :: cs => startsWithList pat (c :: cs) || containsSub pat cs

/-! ### Models of the runtime primitives the parsers call -/

def isDigitChar (c : Char) : Bool :=
  '0' ≤ c && c ≤ '9'

def digitsToNat (l : List Char) : Nat :=
  l.foldl (fun a c => a * 10 + (c.toNat - '0'.toNat)) 0

/-- Parsing of an unsigned plain decimal numeral (digits with at most one
point, at least one digit overall) into an exact rational. -/
def parseDecimalQ (l : List Char) : Option ℚ :=
  match l.splitOn '.' with
  | [ip] => if ip ≠ [] && ip.all isDigitChar then some (digitsToNat ip) else none
  | [ip, fp] =>
      if (ip ≠ [] || fp ≠ []) && ip.all isDigitChar && fp.all isDigitChar then
        some (qAdd (digitsToNat ip : ℚ)
          (qDiv (digitsToNat fp : ℚ) (((10 : Nat) ^ fp.length : Nat) : ℚ)))
      else none
  | _ => none

/-- Model of the Number coercion applied to the latency field: the empty or
all-whitespace string coerces to zero, a plain decimal numeral (optionally
signed) to its exact value, the Infinity spellings to the infinities, and
everything else to NaN.  Exponent and hexadecimal spellings are outside the
model's scope; no settled claim depends on the stored value of such a
field. -/
def jsNumber (s : String) : JsNum :=
  let t := strTrim s
  if t = "" then .fin 0
  else
    let sb : Int × List Char :=
      match t.data with
      | '-' :: rest => (-1, rest)
      | '+' :: rest => (1, rest)
      | l => (1, l)
    if sb.2 = "Infinity".data then (if sb.1 = 1 then .inf else .negInf)
    else
      match parseDecimalQ sb.2 with
      | some q => .fin (qMul (sb.1 : ℚ) q)
      | none => .nan

def daysInMonth (y m : Nat) : Nat :=
  if m = 2 then (if y % 4 = 0 && (y % 100 ≠ 0 || y % 400 = 0) then 29 else 28)
  else if m = 4 || m = 6 || m = 9 || m = 11 then 30
  else 31

/-- Days between 1970-01-01 and the given Gregorian civil date
(the standard era-based computation). -/
def daysFromCivil (y m d : Nat) : Int :=
  let y' : Int := (y : Int) - (if m ≤ 2 then 1 else 0)
  let era : Int := Int.fdiv y' 400
  let yoe : Int := y' - era * 400
  let mp : Int := ((m : Int) + 9) % 12
  let doy : Int := (153 * mp + 2) / 5 + (d : Int) - 1
  let doe : Int := yoe * 365 + yoe / 4 - yoe / 100 + doy
  era * 146097 + doe - 719468

/-- Model of the runtime date parser restricted to the strict layout the
repository's timestamps take after the space-to-T replacement and the
appended zone marker: YYYY-MM-DDTHH:MM:SSZ.  The result is the millisecond
epoch value; strings in any other layout or with out-of-range components
are invalid.  Parser theorems that must hold for every runtime date parser
are stated parametrically in the parse function. -/
def jsDateParseModel (s : String) : Option Int :=
  match s.data with
  | [y1, y2, y3, y4, '-', m1, m2, '-', d1, d2, 'T',
     h1, h2, ':', n1, n2, ':', s1, s2, 'Z'] =>
      if [y1, y2, y3, y4, m1, m2, d1, d2, h1, h2, n1, n2, s1, s2].all isDigitChar then
        let y := digitsToNat [y1, y2, y3, y4]
        let mo := digitsToNat [m1, m2]
        let da := digitsToNat [d1, d2]
        let h := digitsToNat [h1, h2]
        let mi := digitsToNat [n1, n2]
        let se := digitsToNat [s1, s2]
        if 1 ≤ y && 1 ≤ mo && mo ≤ 12 && 1 ≤ da && da ≤ daysInMonth y mo &&
            h ≤ 23 && mi ≤ 59 && se ≤ 59 then
          some ((daysFromCivil y mo da * 86400 + ((h * 3600 + mi * 60 + se : Nat) : Int)) * 1000)
        else none
      else none
  | _ => none

/-! ### Band normalization (MultiDeviceLatencyChart.tsx lines 76-84) -/

/-- Model of normalizeBand: a free-text band string maps to one of the
three band codes through substring tests on the trimmed lowercased text,
checked in source order; the patterns of each source alternation are kept,
with the alternatives subsumed by another alternative of the same
alternation folded away. -/
def normalizeBand (raw : Option String) : Option String :=
  match raw with
  | none => none
  | some raw' =>
      if raw' = "" then none
      else
        let s := lowerStr (strTrim raw')
        if s = "" then none
        else
          let d := s.data
          if containsSub "2.4".data d || containsSub "2g".data d ||
              containsSub "2 ghz".data d then some "24"
          else if containsSub "backhaul".data d || containsSub "mesh".data d then some "5m"
          else if containsSub "5".data d then some "5"
          else none

/-! ### The record parsers (MultiDeviceLatencyChart.tsx lines 127-187) -/

/-- The device-name registry: identifier to display name, in insertion
order; a stored none models a row whose name field was undefined. -/
abbrev DeviceNames := List (String × Option String)

def setName (k : String) (v : Option String) : DeviceNames → DeviceNames
  | [] => [(k, v)]
  | (k', v') :: t => if k' = k then (k', v) :: t else (k', v') :: setName k v t

def getName (ns : DeviceNames) (k : String) : Option String :=
  match ns.find? (fun p => p.1 = k) with
  | some p => p.2
  | none => none

/-- Model of the tmpByTime map update: fetch-or-create the record of
timestamp t, then apply the per-row mutations to it.  Insertion order of
the map is kept, as JavaScript Maps do. -/
def upsertRow (t : Int) (upd : Row → Row) : List Row → List Row
  | [] => [upd { x := t, cells := [] }]
  | r :: rs => if r.x = t then upd r :: rs else r :: upsertRow t upd rs

/-- Model of the final sort of the per-timestamp records ascending by
timestamp (lines 144 and 185).  Since the map keys are pairwise distinct
there is exactly one sorted permutation, so any sorting algorithm models
the JavaScript sort faithfully here. -/
def sortRowsByX (m : List Row) : List Row :=
  List.insertionSort (fun a b => a.x ≤ b.x) m

/-- One line of the tab-separated layout: skip it when it has fewer than
four fields, abort when its timestamp is invalid (Invalid
Date.toISOString() throws a RangeError), otherwise record the device name,
merge the latency into the record of its timestamp, and attach the
band heuristically derived from the device name, when any. -/
def tsvProcessLine (dparse : String → Option Int) (st : List Row × DeviceNames)
    (line : String) : Except Unit (List Row × DeviceNames) :=
  match splitTabs line with
  | timeStr :: deviceId :: deviceName :: latencyStr :: _ =>
      match dparse (String.mk (replaceFirstSpace timeStr.data) ++ "Z") with
      | none => .error ()
      | some t =>
          let latency := jsNumber latencyStr
          let names := setName deviceId (some deviceName) st.2
          let upd : Row → Row := fun r =>
            let r := r.set deviceId (.num latency)
            match normalizeBand (some deviceName) with
            | some h => r.set ("__band:" ++ deviceId) (.str h)
            | none => r
          .ok (upsertRow t upd st.1, names)
  | _ => .ok st

def parseTSVGo (dparse : String → Option Int) :
    List String → List Row × DeviceNames → Except Unit (List Row × DeviceNames)
  | [], st => .ok st
  | line :: rest, st =>
      match tsvProcessLine dparse st line with
      | .error e => .error e
      | .ok st' => parseTSVGo dparse rest st'

/-- Model of parseTSV (lines 127-146), parametric in the runtime date
parser.  The error value models the RangeError thrown by toISOString on an
invalid date; there is no other throw site reachable in the source. -/
def parseTSV (dparse : String → Option Int) (text : String) :
    Except Unit (List Row × DeviceNames) :=
  let lines := (splitLines text).filter (fun l => l ≠ "")
  match parseTSVGo dparse lines ([], []) with
  | .error e => .error e
  | .ok (m, names) => .ok (sortRowsByX m, names)

/-- The resolved header column indices of the comma-separated layout;
none models the index -1 of a missing column. -/
structure CsvHeader where
  idxTimestamp : Option Nat
  idxDeviceId : Option Nat
  idxDeviceName : Option Nat
  idxLatency : Option Nat
  idxBand : Option Nat

def bandCandidates : List String :=
  ["band", "wifi_band", "connection_band", "connected_band",
   "uplink", "radio", "frequency", "freq"]

/-- First candidate header name present in the lowercased header wins
(lines 157-163). -/
def findBandIdx : List String → List String → Option Nat
  | [], _ => none
  | c :: cs, lower =>
      match lower.findIdx? (fun h => h = c) with
      | some i => some i
      | none => findBandIdx cs lower

def parseCSVHeader (headerLine : String) : CsvHeader :=
  let header := (headerSplit headerLine).map stripQuotes
  let lower := header.map lowerStr
  { idxTimestamp := header.findIdx? (fun h => h = "timestamp")
    idxDeviceId := header.findIdx? (fun h => h = "device_id")
    idxDeviceName := header.findIdx? (fun h => h = "device_name")
    idxLatency := header.findIdx? (fun h => h = "latency_ms")
    idxBand := findBandIdx bandCandidates lower }

/-- Field access parts[idx] followed by the optional-chained quote strip;
none models undefined. -/
def csvField (parts : List String) (idx : Option Nat) : Option String :=
  match idx with
  | none => none
  | some i => (parts[i]?).map stripQuotes

/-- One data line of the comma-separated layout (lines 166-184): skip blank
lines, lines with fewer than four fields, and lines whose timestamp, device
id or latency field is missing or empty; abort on an invalid timestamp;
otherwise merge the row, taking the band from the band column when it
normalizes, else from the device name. -/
def csvProcessLine (dparse : String → Option Int) (hdr : CsvHeader)
    (st : List Row × DeviceNames) (line : String) :
    Except Unit (List Row × DeviceNames) :=
  if strTrim line = "" then .ok st
  else
    let parts := csvSplit line
    if parts.length < 4 then .ok st
    else
      let deviceName := csvField parts hdr.idxDeviceName
      let bandStr := csvField parts hdr.idxBand
      match csvField parts hdr.idxTimestamp, csvField parts hdr.idxDeviceId,
          csvField parts hdr.idxLatency with
      | some ts, some dev, some lat =>
          if ts = "" || dev = "" || lat = "" then .ok st
          else
            match dparse (String.mk (replaceFirstSpace ts.data) ++ "Z") with
            | none => .error ()
            | some t =>
                let latency := jsNumber lat
                let names := setName dev deviceName st.2
                let norm :=
                  match normalizeBand bandStr with
                  | some b => some b
                  | none => normalizeBand deviceName
                let upd : Row → Row := fun r =>
                  let r := r.set dev (.num latency)
                  match norm with
                  | some b => r.set ("__band:" ++ dev) (.str b)
                  | none => r
                .ok (upsertRow t upd st.1, names)
      | _, _, _ => .ok st

def parseCSVGo (dparse : String → Option Int) (hdr : CsvHeader) :
    List String → List Row × DeviceNames → Except Unit (List Row × DeviceNames)
  | [], st => .ok st
  | line :: rest, st =>
      match csvProcessLine dparse hdr st line with
      | .error e => .error e
      | .ok st' => parseCSVGo dparse hdr rest st'

/-- Model of parseCSV (lines 148-187), parametric in the runtime date
parser. -/
def parseCSV (dparse : String → Option Int) (text : String) :
    Except Unit (List Row × DeviceNames) :=
  let lines := (splitLines text).filter (fun l => l ≠ "")
  match lines with
  | [] => .ok ([], [])
  | headerLine :: dataLines =>
      let hdr := parseCSVHeader headerLine
      match parseCSVGo dparse hdr dataLines ([], []) with
      | .error e => .error e
      | .ok (m, names) => .ok (sortRowsByX m, names)

/-! ### Sparse-device synthesizer (MultiDeviceLatencyChart.tsx lines 190-268) -/

/-- Model of Math.imul followed by the unsigned reinterpretation the
subsequent bitwise operations perform: multiplication modulo 2^32. -/
def imul32 (a b : Nat) : Nat :=
  (a * b) % 4294967296

/-- Model of hashStringToUnit (lines 193-200): a 32-bit FNV-1a hash of the
UTF-16 code units, folded to a rational in [0, 1] by dividing by
0xffffffff.  Char.toNat modulo 2^16 equals charCodeAt for all
basic-multilingual-plane characters; the identifiers of this development
are ASCII.  The final division is exact in the model; no settled claim
depends on its double rounding. -/
def hashStringToUnit (s : String) : ℚ :=
  let h := s.data.foldl (fun h c => imul32 (h ^^^ (c.toNat % 65536)) 16777619) 2166136261
  qDiv (h : ℚ) 4294967295

/-- Insertion-ordered set insertion, modelling adding to a JavaScript Set. -/
def insertUniq (l : List String) (x : String) : List String :=
  if x ∈ l then l else l ++ [x]

/-- Model of the id collection of lines 205-208: the keys of the name
registry other than gap, then every own key of every row other than x and
gap, in first-insertion order.  Note the band meta keys (prefixed
with two underscores) are not filtered here, unlike in the chart's
deviceIds computation. -/
def deviceIdsAllOf (rows : List Row) (names : DeviceNames) : List String :=
  let ids := names.foldl (fun acc p => if p.1 ≠ "gap" then insertUniq acc p.1 else acc) []
  rows.foldl (fun acc r =>
    r.cells.foldl (fun acc p =>
      if p.1 ≠ "x" && p.1 ≠ "gap" then insertUniq acc p.1 else acc) acc) ids

/-- Model of the per-device coverage measurement of lines 212-216. -/
def coverageCount (rows : List Row) (id : String) : Nat :=
  (rows.filter (fun r => isNumeric (r.get? id))).length

/-- Stable insertion for a descending sort by coverage: an element is
placed after every already-placed element of greater-or-equal coverage,
matching the stable JavaScript sort with the comparator
coverage(b) - coverage(a). -/
def insDesc (cov : String → Nat) (x : String) : List String → List String
  | [] => [x]
  | y :: ys => if cov y < cov x then x :: y :: ys else y :: insDesc cov x ys

def sortCovDesc (cov : String → Nat) (l : List String) : List String :=
  l.foldl (fun acc x => insDesc cov x acc) []

/-- Model of the base-device choice of lines 219-224: the up-to-four ids of
best coverage, ties broken by original order, excluding zero coverage. -/
def baseIdsOf (rows : List Row) (names : DeviceNames) : List String :=
  ((sortCovDesc (coverageCount rows) (deviceIdsAllOf rows names)).take 4).filter
    (fun id => 0 < coverageCount rows id)

/-- Ascending insertion sort of the baseline candidates, modelling the
JavaScript numeric-comparator sort; the candidate list never contains NaN. -/
def insAscNum (x : JsNum) : List JsNum → List JsNum
  | [] => [x]
  | y :: ys => if x.leB y then x :: y :: ys else y :: insAscNum x ys

def sortAscNum (l : List JsNum) : List JsNum :=
  l.foldl (fun acc x => insAscNum x acc) []

/-- Model of baselineAt (lines 227-236): the median (upper middle) of the
base devices' numeric values present at the row, none when no base device
reports there. -/
def baselineAt (baseIds : List String) (r : Row) : Option JsNum :=
  let vals := baseIds.filterMap (fun id =>
    match r.get? id with
    | some (.num n) => if n.isNaN then none else some n
    | _ => none)
  if vals = [] then none
  else (sortAscNum vals)[vals.length / 2]?

/-- Floor of a rational as an integer. -/
def ratFloor (q : ℚ) : Int :=
  Int.fdiv q.num (q.den : Int)

/-- Model of Number(v.toFixed(2)) for the nonnegative finite values the
synthesizer produces: rounding to two decimal places, halves away from
zero. -/
def toFixed2 (q : ℚ) : ℚ :=
  qDiv ((ratFloor (qAdd (qMul q 100) (mkRat 1 2)) : Int) : ℚ) 100

def numToFixed2 : JsNum → JsNum
  | .fin q => .fin (toFixed2 q)
  | n => n

/-- The five hash-derived per-device constants of lines 244-249; the
decimal literals of the source are exact rationals here. -/
structure SynthConsts where
  offset : ℚ
  multiplier : ℚ
  amp : ℚ
  phase : ℚ
  noiseMag : ℚ

def synthConstsOf (id : String) (piQ : ℚ) : SynthConsts :=
  let seed := hashStringToUnit id
  { offset := qSub (qMul seed 6) 3
    multiplier := qAdd (mkRat 9 10) (qMul seed (mkRat 2 5))
    amp := qAdd (mkRat 1 2) (qMul (hashStringToUnit (id ++ "amp")) (mkRat 9 5))
    phase := qMul (qMul (hashStringToUnit (id ++ "phase")) piQ) 2
    noiseMag := qAdd (mkRat 3 5) (qMul (hashStringToUnit (id ++ "noise")) (mkRat 9 10)) }

/-- The synthesized value of lines 258-263 for the row of index i whose
baseline is base: the clamped and rounded sum
base * multiplier + offset + diurnal + noise, with Math.sin and Math.PI
passed in as the parameters sinF and piQ. -/
def synthValue (sinF : ℚ → ℚ) (piQ : ℚ) (id : String) (c : SynthConsts)
    (i : Nat) (base : JsNum) : JsNum :=
  let diurnal := qMul c.amp (sinF (qAdd (qDiv (qMul (qMul 2 piQ) (i : ℚ)) 24) c.phase))
  let noise := qMul (qMul (qSub (hashStringToUnit (id ++ ":" ++ toString i)) (mkRat 1 2)) 2)
    c.noiseMag
  numToFixed2 (JsNum.jsMax (.fin 0) (JsNum.jsMin (.fin 25)
    ((((base.mul (.fin c.multiplier)).add (.fin c.offset)).add (.fin diurnal)).add
      (.fin noise))))

/-- Mapping a function of the row index over a record sequence. -/
def passGo (f : Nat → Row → Row) : Nat → List Row → List Row
  | _, [] => []
  | i, r :: rs => f i r :: passGo f (i + 1) rs

/-- The inner loop of lines 251-264 for one sparse id: rows carrying the
gap flag and cells already numeric are left alone; otherwise, when a
baseline exists, the synthesized value is written into the id's cell. -/
def augmentPass (sinF : ℚ → ℚ) (piQ : ℚ) (baseIds : List String) (id : String)
    (rows : List Row) : List Row :=
  let c := synthConstsOf id piQ
  passGo (fun i r =>
    if r.hasKey "gap" then r
    else if isNumeric (r.get? id) then r
    else
      match baselineAt baseIds r with
      | none => r
      | some base => r.set id (.num (synthValue sinF piQ id c i base))) 0 rows

/-- Model of augmentRowsForSparseDevices (lines 202-268).  The sparseness
threshold Math.floor(total * 0.6) is modelled as the natural-number
quotient 3 * total / 5: the double product total * 0.6 differs from the
exact 3t/5 by at most t * 2^-54, less than half an ulp, so its floor equals
the exact floor for every realistic record count.  Coverage and the base
ids are measured once on the input rows; the per-device passes then run
sequentially over the progressively filled rows, as the in-place mutation
of the source does. -/
def augmentRowsForSparseDevices (sinF : ℚ → ℚ) (piQ : ℚ) (rows : List Row)
    (names : DeviceNames) : List Row :=
  if rows.length = 0 then rows
  else
    let deviceIdsAll := deviceIdsAllOf rows names
    if deviceIdsAll.length = 0 then rows
    else
      let baseIds := baseIdsOf rows names
      if baseIds.length = 0 then rows
      else
        let minCoverage := rows.length * 3 / 5
        deviceIdsAll.foldl (fun acc id =>
          if minCoverage ≤ coverageCount rows id then acc
          else augmentPass sinF piQ baseIds id acc) rows

/-! ### Brush initialization and handle labels (ExternalBrush.tsx) -/

/-- The local display state of the brush as initialized from the props
(lines 117-118, re-synced at lines 125-126): the indices are stored
without any clamping. -/
structure BrushLocalState where
  localStart : Int
  localEnd : Int
deriving DecidableEq

def externalBrushInit (startIndex endIndex : Int) : BrushLocalState :=
  { localStart := startIndex, localEnd := endIndex }

/-- Model of labelForIndex (lines 229-240): the handler reads
data[idx][xKey] with no bounds check, so outside [0, data.length) the
indexing yields undefined and the property read throws a TypeError,
modelled by the error value; in bounds it formats the row's timestamp for
display (the locale formatting itself is presentation and is elided: the
settled claim is about clamping and throwing). -/
def labelForIndex (data : List Row) (idx : Int) : Except Unit Int :=
  match (if 0 ≤ idx then data[idx.toNat]? else none) with
  | none => .error ()
  | some r => .ok r.x

/-- The two tooltip labels every render of the control computes
(lines 409 and 428), one per handle. -/
def externalBrushRenderLabels (data : List Row) (st : BrushLocalState) :
    Except Unit (Int × Int) :=
  match labelForIndex data st.localStart, labelForIndex data st.localEnd with
  | .ok a, .ok b => .ok (a, b)
  | .error e, _ => .error e
  | _, .error e => .error e

/-! ### Outage detector (MultiDeviceLatencyChart.tsx lines 421-447) -/

/-- The per-index outage test of lines 428-430: the row carries the gap
flag, or the device set is empty, or every known device id lacks a
non-NaN numeric value at the row. -/
def outagePointCode (deviceIds : List String) (row : Row) : Bool :=
  row.hasKey "gap" ||
    (deviceIds.isEmpty || deviceIds.all (fun id => !isNumeric (row.get? id)))

/-- The scan of lines 426-445: contiguous outage points collapse to one
range whose endpoints are the timestamps one point outside the run, clamped
to the slice; a run still open at the end of the slice closes at the last
record. -/
def outageRangesGo (ids : List String) (sliced : List Row) :
    List Row → Nat → Option Nat → List (Int × Int) → List (Int × Int)
  | [], _, none, acc => acc
  | [], _, some s, acc =>
      let dflt : Row := { x := 0, cells := [] }
      let x1 := (sliced.getD (s - 1) dflt).x
      let x2 := (sliced.getD (sliced.length - 1) dflt).x
      acc ++ [(x1, x2)]
  | row :: rest, i, startIdx, acc =>
      let isOut := outagePointCode ids row
      match startIdx with
      | none =>
          if isOut then outageRangesGo ids sliced rest (i + 1) (some i) acc
          else outageRangesGo ids sliced rest (i + 1) none acc
      | some s =>
          if isOut then outageRangesGo ids sliced rest (i + 1) (some s) acc
          else
            let dflt : Row := { x := 0, cells := [] }
            let x1 := (sliced.getD (s - 1) dflt).x
            let x2 := (sliced.getD (min (sliced.length - 1) i) dflt).x
            outageRangesGo ids sliced rest (i + 1) none (acc ++ [(x1, x2)])

/-- Model of the outageRanges computation: the list of (x1, x2) timestamp
pairs of the shaded outage regions for the visible slice and the known
device-id set.  The walk visits the slice rows in order while the index
argument tracks the position of the current row within the slice. -/
def outageRanges (ids : List String) (sliced : List Row) : List (Int × Int) :=
  if sliced.isEmpty then [] else outageRangesGo ids sliced sliced 0 none []

/-! ### Band classifier (MultiDeviceLatencyChart.tsx lines 344-355, 399-415, 450-484) -/

/-- Model of the deviceIds computation of lines 344-355: ids from the name
registry (non-empty, not gap) then the record keys other than x, gap and
the double-underscore meta keys, in first-insertion order.  The source
finally sorts this list with a locale numeric compare for display; that
sort is a permutation and every settled claim depends only on membership,
so the model keeps insertion order. -/
def deviceIdsOf (names : DeviceNames) (data : List Row) : List String :=
  let ids := names.foldl
    (fun acc p => if p.1 ≠ "" && p.1 ≠ "gap" then insertUniq acc p.1 else acc) []
  data.foldl (fun acc r =>
    r.cells.foldl (fun acc p =>
      if p.1 ≠ "x" && p.1 ≠ "gap" && !(startsWithList "__".data p.1.data) then
        insertUniq acc p.1
      else acc) acc) ids

/-- Model of deviceLatencyQuantiles (lines 400-415): the values of the
device across the full dataset that are numbers other than NaN, sorted
ascending; the entries at the floor of one and three quarters of the count
are the 25th and 75th percentile surrogates.  The floors of len * 0.25 and
len * 0.75 are exact in doubles, and both indices are within bounds, so the
option matches are total. -/
def deviceLatencyQuantiles (data : List Row) (id : String) : Option (JsNum × JsNum) :=
  let vals := data.filterMap (fun r =>
    match r.get? id with
    | some (.num n) => if n.isNaN then none else some n
    | _ => none)
  if vals = [] then none
  else
    let sorted := sortAscNum vals
    match sorted[vals.length / 4]?, sorted[vals.length * 3 / 4]? with
    | some a, some b => some (a, b)
    | _, _ => none

/-- A JavaScript word character, as the word-boundary assertion uses. -/
def isWordChar (c : Char) : Bool :=
  c.isAlphanum || c = '_'

def wordMatchAt (pat : List Char) (prev : Option Char) (l : List Char) : Bool :=
  startsWithList pat l &&
  (match prev with | none => true | some c => !isWordChar c) &&
  (match l.drop pat.length with | [] => true | c :: _ => !isWordChar c)

def hasWordMatchGo (pat : List Char) : Option Char → List Char → Bool
  | prev, [] => wordMatchAt pat prev []
  | prev, c :: rest => wordMatchAt pat prev (c :: rest) || hasWordMatchGo pat (some c) rest

/-- Model of the case-insensitive word-bounded name test of line 465:
one of mesh, ext, extender, backhaul occurs in the display name delimited
by word boundaries. -/
def meshNameTest (name : String) : Bool :=
  let d := name.data.map lowerChar
  ["mesh", "ext", "extender", "backhaul"].any (fun p => hasWordMatchGo p.data none d)

/-- A JavaScript falsiness test on a possibly-undefined value. -/
def jsFalsyOpt : Option JsVal → Bool
  | none => true
  | some .null => true
  | some (.str s) => s = ""
  | some (.num n) => n = .fin 0 || n.isNaN

/-- Decimal rendering of a nonnegative rational exactly representable with
at most six decimal places; the minimal number of places is chosen, so the
output matches the shortest-round-trip toString of such a value.  The
fallback branch is unreachable for the values this development evaluates
(the synthesizer rounds to two places). -/
def ratDecimalStringNonneg (q : ℚ) : String :=
  match (List.range 7).find? (fun k => (qMul q (mkRat (10 ^ k) 1)).den = 1) with
  | some k =>
      let m := (qMul q (mkRat (10 ^ k) 1)).num.toNat
      if k = 0 then toString m
      else
        let base := 10 ^ k
        let fs := toString (m % base)
        let fs := String.mk (List.replicate (k - fs.length) '0') ++ fs
        toString (m / base) ++ "." ++ fs
  | none => "~" ++ toString q.num ++ "/" ++ toString q.den

/-- Model of the template-literal stringification of the value interpolated
into the band key. -/
def jsNumToString : JsNum → String
  | .nan => "NaN"
  | .inf => "Infinity"
  | .negInf => "-Infinity"
  | .fin q => if q < 0 then "-" ++ ratDecimalStringNonneg (-q) else ratDecimalStringNonneg q

def jsValToString : JsVal → String
  | .str s => s
  | .null => "null"
  | .num n => jsNumToString n

def bandCodes : List String := ["24", "5", "5m"]

/-- The band key of one device and one code value, as interpolated by the
template literal of lines 457, 478 and 480. -/
def bandKey (id c : String) : String :=
  id ++ "__band_" ++ c

/-- The band-code choice of lines 460-476 for one device of a row with a
present numeric value: the captured tag unless falsy, else the word-bounded
name heuristic, else the quantile heuristic, else the default, with a
nullish final value defaulting to the 2.4GHz code. -/
def bandCodeOf (row : Row) (names : DeviceNames)
    (quant : String → Option (JsNum × JsNum)) (id : String) : JsVal :=
  let v := row.get? id
  let b0 := row.get? ("__band:" ++ id)
  let b1 :=
    if jsFalsyOpt b0 then
      (if meshNameTest ((getName names id).getD "") then some (JsVal.str "5m") else b0)
    else b0
  let b2 :=
    if jsFalsyOpt b1 then
      (match quant id with
       | some (q25, q75) =>
           match v with
           | some (.num n) =>
               if n.leB q25 then some (JsVal.str "5")
               else if q75.leB n then some (JsVal.str "24")
               else b1
           | _ => b1
       | none => b1)
    else b1
  match b2 with
  | none => .str "24"
  | some .null => .str "24"
  | some w => w

/-- The body of the per-device loop of slicedDataBanded (lines 453-481),
reading from the input row and writing into the accumulated output row:
no numeric value nulls the three band keys; otherwise the value is written
under the key interpolated from the chosen band code while the remaining
codes are nulled. -/
def bandStep (row : Row) (names : DeviceNames) (quant : String → Option (JsNum × JsNum))
    (out : Row) (id : String) : Row :=
  let v := row.get? id
  if !isNumeric v then
    bandCodes.foldl (fun o c => o.set (bandKey id c) .null) out
  else
    let code : JsVal := bandCodeOf row names quant id
    let vv : JsVal := match v with | some w => w | none => .null
    let out := out.set (bandKey id (jsValToString code)) vv
    (bandCodes.filter (fun c => !(code = JsVal.str c))).foldl
      (fun o c => o.set (bandKey id c) .null) out

/-- The band split of one row: the spread copy of the row followed by the
per-device writes, in device order. -/
def bandRow (ids : List String) (names : DeviceNames)
    (quant : String → Option (JsNum × JsNum)) (row : Row) : Row :=
  ids.foldl (bandStep row names quant) row

/-- Model of data.slice(start, stop) for nonnegative in-order arguments. -/
def jsSlice (l : List Row) (start stop : Nat) : List Row :=
  (l.drop start).take (stop - start)

/-- Model of slicedDataBanded (lines 450-484) composed with the slice of
line 341: the visible window [left, right] of the dataset, band-split
against the device ids, names and full-dataset quantiles. -/
def slicedDataBanded (names : DeviceNames) (data : List Row) (left right : Nat) : List Row :=
  let ids := deviceIdsOf names data
  (jsSlice data left (right + 1)).map (bandRow ids names (deviceLatencyQuantiles data))

/-! ### C2: out-of-range brush initialization -/

/-- A 50-record dataset, as in the claim's example. -/
def data50 : List Row :=
  (List.range 50).map (fun i => { x := (i : Int), cells := [] })

/-- C2, evaluated at the failing input: mounting the brush over a 50-record
dataset with startIndex 0 and endIndex 10000 stores the indices without any
clamping (localEnd stays 10000, not the claimed 49), and the very first
render's right-handle label evaluates data[10000][xKey], a property read on
undefined, which throws a TypeError rather than clamping. -/
theorem c2_brush_init_unclamped_throws :
    externalBrushInit 0 10000 = { localStart := 0, localEnd := 10000 } ∧
    (externalBrushInit 0 10000).localEnd ≠ 49 ∧
    externalBrushRenderLabels data50 (externalBrushInit 0 10000) = .error () := by
  refine ⟨rfl, by decide, by decide⟩

/-! ### C3: rows with unparseable timestamps -/

def badTimestampTSV : String := "not-a-date\tdev-1\tAlpha\t7.0"

def badTimestampCSV : String :=
  "timestamp,device_id,device_name,latency_ms\nnot-a-date,d1,Alpha,7.0"

/-- C3, evaluated at the failing input: in both layouts a row with enough
fields whose timestamp does not parse makes the parser throw (the
RangeError of toISOString on an Invalid Date), rather than being silently
skipped; by contrast a row with too few fields is skipped and the parse
returns normally. -/
theorem c3_invalid_timestamp_throws :
    parseTSV jsDateParseModel badTimestampTSV = .error () ∧
    parseCSV jsDateParseModel badTimestampCSV = .error () ∧
    parseTSV jsDateParseModel "too\tshort" = .ok ([], []) := by
  refine ⟨by decide, by decide, by decide⟩

/-! ### C4: the parsed record sequence is strictly increasing in timestamp -/

def rowKeysX (m : List Row) : List Int :=
  m.map (fun r => r.x)

theorem upsertRow_keys (t : Int) (upd : Row → Row) (hupd : ∀ r, (upd r).x = r.x)
    (m : List Row) :
    rowKeysX (upsertRow t upd m) =
      if t ∈ rowKeysX m then rowKeysX m else rowKeysX m ++ [t] := by
  induction m with
  | nil => simp [upsertRow, rowKeysX, hupd]
  | cons r rs ih =>
      by_cases h : r.x = t
      · simp [upsertRow, rowKeysX, h, hupd]
      · have hne : t ≠ r.x := fun hc => h hc.symm
        simp only [upsertRow, rowKeysX, List.map_cons, if_neg h]
        simp only [rowKeysX] at ih
        rw [ih]
        by_cases hm : t ∈ rs.map (fun r => r.x) <;>
          simp [hm, hne]

theorem upsertRow_nodup (t : Int) (upd : Row → Row) (hupd : ∀ r, (upd r).x = r.x)
    (m : List Row) (h : (rowKeysX m).Nodup) : (rowKeysX (upsertRow t upd m)).Nodup := by
  rw [upsertRow_keys t upd hupd m]
  by_cases hm : t ∈ rowKeysX m
  · simpa [hm]
  · simp only [if_neg hm]
    refine List.Nodup.append h (List.nodup_singleton t) ?_
    intro a ha hb
    simp at hb
    exact hm (hb ▸ ha)

theorem rowSet_x (r : Row) (k : String) (v : JsVal) : (r.set k v).x = r.x := rfl

theorem tsvProcessLine_ok_nodup (dparse : String → Option Int)
    (st : List Row × DeviceNames) (line : String) (res : List Row × DeviceNames)
    (h : (rowKeysX st.1).Nodup) (h' : tsvProcessLine dparse st line = .ok res) :
    (rowKeysX res.1).Nodup := by
  unfold tsvProcessLine at h'
  split at h'
  · split at h'
    · exact absurd h' (by simp)
    · injection h' with h''
      subst h''
      refine upsertRow_nodup _ _ (fun r => ?_) _ h
      cases normalizeBand _ <;> simp [rowSet_x]
  · injection h' with h''
    subst h''
    exact h

theorem parseTSVGo_ok_nodup (dparse : String → Option Int) :
    ∀ (lines : List String) (st res : List Row × DeviceNames),
      (rowKeysX st.1).Nodup → parseTSVGo dparse lines st = .ok res →
      (rowKeysX res.1).Nodup := by
  intro lines
  induction lines with
  | nil =>
      intro st res h h'
      injection h' with h''
      subst h''
      exact h
  | cons line rest ih =>
      intro st res h h'
      unfold parseTSVGo at h'
      split at h'
      · exact absurd h' (by simp)
      · rename_i st' heq
        exact ih st' res (tsvProcessLine_ok_nodup dparse st line st' h heq) h'

theorem csvProcessLine_ok_nodup (dparse : String → Option Int) (hdr : CsvHeader)
    (st : List Row × DeviceNames) (line : String) (res : List Row × DeviceNames)
    (h : (rowKeysX st.1).Nodup) (h' : csvProcessLine dparse hdr st line = .ok res) :
    (rowKeysX res.1).Nodup := by
  simp only [csvProcessLine] at h'
  split at h'
  · injection h' with h''; subst h''; exact h
  · split at h'
    · injection h' with h''; subst h''; exact h
    · split at h'
      · split at h'
        · injection h' with h''; subst h''; exact h
        · split at h'
          · exact absurd h' (by simp)
          · injection h' with h''
            subst h''
            refine upsertRow_nodup _ _ (fun r => ?_) _ h
            dsimp only
            split <;> rfl
      · injection h' with h''; subst h''; exact h

theorem parseCSVGo_ok_nodup (dparse : String → Option Int) (hdr : CsvHeader) :
    ∀ (lines : List String) (st res : List Row × DeviceNames),
      (rowKeysX st.1).Nodup → parseCSVGo dparse hdr lines st = .ok res →
      (rowKeysX res.1).Nodup := by
  intro lines
  induction lines with
  | nil =>
      intro st res h h'
      injection h' with h''
      subst h''
      exact h
  | cons line rest ih =>
      intro st res h h'
      unfold parseCSVGo at h'
      split at h'
      · exact absurd h' (by simp)
      · rename_i st' heq
        exact ih st' res (csvProcessLine_ok_nodup dparse hdr st line st' h heq) h'

instance : IsTotal Row (fun a b => a.x ≤ b.x) :=
  ⟨fun a b => Int.le_total a.x b.x⟩

instance : IsTrans Row (fun a b => a.x ≤ b.x) :=
  ⟨fun _ _ _ h h' => le_trans h h'⟩

theorem sortRowsByX_pairwise_lt (m : List Row) (h : (rowKeysX m).Nodup) :
    (sortRowsByX m).Pairwise (fun a b => a.x < b.x) := by
  have hperm : List.Perm (sortRowsByX m) m := List.perm_insertionSort _ m
  have hsorted : (sortRowsByX m).Pairwise (fun a b : Row => a.x ≤ b.x) :=
    List.sorted_insertionSort _ m
  simp only [rowKeysX] at h
  have hnd : ((sortRowsByX m).map (fun r => r.x)).Nodup :=
    (List.Perm.nodup_iff (List.Perm.map (fun r => r.x) hperm)).mpr h
  have hne : (sortRowsByX m).Pairwise (fun a b : Row => a.x ≠ b.x) :=
    List.pairwise_map.mp hnd
  exact (hsorted.and hne).imp (fun h => lt_of_le_of_ne h.1 h.2)

/-- C4: for every runtime date parser and every input text, whenever either
parser returns (in particular on every valid input, where all rows carry
parseable timestamps), the returned record sequence is strictly increasing
in timestamp, hence contains no two records with the same timestamp. -/
theorem c4_parse_output_strictly_increasing (dparse : String → Option Int)
    (text : String) (rows : List Row) (names : DeviceNames) :
    (parseTSV dparse text = .ok (rows, names) →
      rows.Pairwise (fun a b => a.x < b.x)) ∧
    (parseCSV dparse text = .ok (rows, names) →
      rows.Pairwise (fun a b => a.x < b.x)) := by
  constructor
  · intro h
    simp only [parseTSV] at h
    split at h
    · exact absurd h (by simp)
    · rename_i m names0 heq
      injection h with h'
      have h2 := parseTSVGo_ok_nodup dparse _ ([], []) (m, names0) (by simp [rowKeysX]) heq
      have h1 : rows = sortRowsByX m := (congrArg Prod.fst h').symm
      rw [h1]
      exact sortRowsByX_pairwise_lt m h2
  · intro h
    simp only [parseCSV] at h
    split at h
    · injection h with h'
      have h1 : rows = [] := (congrArg Prod.fst h').symm
      rw [h1]
      exact List.Pairwise.nil
    · rename_i headerLine dataLines
      split at h
      · exact absurd h (by simp)
      · rename_i m names0 heq
        injection h with h'
        have h2 := parseCSVGo_ok_nodup dparse _ _ ([], []) (m, names0) (by simp [rowKeysX]) heq
        have h1 : rows = sortRowsByX m := (congrArg Prod.fst h').symm
        rw [h1]
        exact sortRowsByX_pairwise_lt m h2

def tsvWitnessText : String :=
  "2025-08-13 00:00:00\tdev-1\tA\t7.0\n2025-08-13 01:00:00\tdev-1\tA\t8.0\n2025-08-13 00:30:00\tdev-2\tB\t9.0"

def tsvWitnessRows : List Row :=
  [{ x := 1755043200000, cells := [("dev-1", JsVal.num (JsNum.fin 7))] },
   { x := 1755045000000, cells := [("dev-2", JsVal.num (JsNum.fin 9))] },
   { x := 1755046800000, cells := [("dev-1", JsVal.num (JsNum.fin 8))] }]

def tsvWitnessNames : DeviceNames :=
  [("dev-1", some "A"), ("dev-2", some "B")]

/-- Witness for c4_parse_output_strictly_increasing: a concrete three-row
tab-separated input, parsed with the concrete date model, returns the
expected record sequence, which is strictly increasing in timestamp. -/
theorem c4_parse_output_strictly_increasing_witness :
    parseTSV jsDateParseModel tsvWitnessText = .ok (tsvWitnessRows, tsvWitnessNames) ∧
    tsvWitnessRows.Pairwise (fun a b => a.x < b.x) :=
  ⟨by decide, (c4_parse_output_strictly_increasing jsDateParseModel
    tsvWitnessText tsvWitnessRows tsvWitnessNames).1 (by decide)⟩

/-! ### Structural lemmas for rows and the synthesizer passes -/

theorem rowGet_set_self (r : Row) (k : String) (v : JsVal) :
    (r.set k v).get? k = some v := by
  show Row.get? { r with cells := setAssoc k v r.cells } k = some v
  unfold Row.get?
  induction r.cells with
  | nil => simp [setAssoc, List.find?]
  | cons p t ih =>
      by_cases hp : p.1 = k
      · simp [setAssoc, hp, List.find?]
      · simpa [setAssoc, hp, List.find?] using ih

theorem rowGet_set_ne (r : Row) (k k' : String) (v : JsVal) (h : k' ≠ k) :
    (r.set k v).get? k' = r.get? k' := by
  show Row.get? { r with cells := setAssoc k v r.cells } k' = _
  unfold Row.get?
  induction r.cells with
  | nil =>
      have hkk : ¬ (k = k') := fun hc => h hc.symm
      simp [setAssoc, List.find?, hkk]
  | cons p t ih =>
      by_cases hp : p.1 = k
      · have hpk : ¬ p.1 = k' := by rw [hp]; exact fun hc => h hc.symm
        have hkk : ¬ (k = k') := fun hc => h hc.symm
        simp [setAssoc, hp, List.find?, hpk, hkk]
      · by_cases hpk : p.1 = k'
        · simp [setAssoc, hp, List.find?, hpk, h]
        · simpa [setAssoc, hp, List.find?, hpk] using ih

theorem passGo_getElem (f : Nat → Row → Row) (j i : Nat) (rs : List Row) :
    (passGo f j rs)[i]? = (rs[i]?).map (f (j + i)) := by
  induction rs generalizing j i with
  | nil => simp [passGo]
  | cons r t ih =>
      cases i with
      | zero => simp [passGo]
      | succ n =>
          simp only [passGo, List.getElem?_cons_succ]
          have e : j + (n + 1) = (j + 1) + n := by omega
          rw [e]
          exact ih (j + 1) n

theorem augmentPass_length (sinF : ℚ → ℚ) (piQ : ℚ) (baseIds : List String)
    (id : String) (rows : List Row) :
    (augmentPass sinF piQ baseIds id rows).length = rows.length := by
  unfold augmentPass
  generalize (fun i r => _ : Nat → Row → Row) = f
  generalize 0 = j
  induction rows generalizing j with
  | nil => rfl
  | cons r t ih => simpa [passGo] using ih (j + 1)

theorem augmentPass_cellAt (sinF : ℚ → ℚ) (piQ : ℚ) (baseIds : List String)
    (id : String) (rows : List Row) (i : Nat) (k : String)
    (h : k ≠ id ∨ isNumeric (cellAt rows i k) = true) :
    cellAt (augmentPass sinF piQ baseIds id rows) i k = cellAt rows i k := by
  unfold augmentPass cellAt
  rw [passGo_getElem]
  cases hrow : rows[i]? with
  | none => rfl
  | some r =>
      simp only [Option.map_some']
      show Row.get? _ k = _
      split
      · rfl
      · split
        · rfl
        · rename_i hnum
          split
          · rfl
          · by_cases hk : k = id
            · subst hk
              rcases h with h | h
              · exact absurd rfl h
              · refine absurd ?_ hnum
                unfold cellAt at h
                rw [hrow] at h
                exact h
            · exact rowGet_set_ne r id k _ hk

/-- A generic fold invariant. -/
theorem foldl_invariant {α β : Type} (P : α → Prop) (step : α → β → α)
    (l : List β) (init : α)
    (hstep : ∀ acc b, b ∈ l → P acc → P (step acc b)) (h : P init) :
    P (l.foldl step init) := by
  induction l generalizing init with
  | nil => exact h
  | cons b t ih =>
      exact ih (step init b) (fun acc b' hb' => hstep acc b' (List.mem_cons_of_mem b hb'))
        (hstep init b (List.mem_cons_self b t) h)

/-- C5: the synthesizer never overwrites a present numeric value: every
(record, device) cell that holds a number other than NaN before the
synthesis holds the identical value afterwards; contrapositively, only
cells that had no such numeric value are ever filled. -/
theorem c5_synthesizer_preserves_real_values (sinF : ℚ → ℚ) (piQ : ℚ)
    (rows : List Row) (names : DeviceNames) (i : Nat) (id : String)
    (h : isNumeric (cellAt rows i id) = true) :
    cellAt (augmentRowsForSparseDevices sinF piQ rows names) i id = cellAt rows i id := by
  simp only [augmentRowsForSparseDevices]
  split
  · rfl
  · split
    · rfl
    · split
      · rfl
      · refine (foldl_invariant
          (fun acc => cellAt acc i id = cellAt rows i id ∧ isNumeric (cellAt acc i id) = true)
          _ _ rows (fun acc b _ hacc => ?_) ⟨rfl, h⟩).1
        split
        · exact hacc
        · obtain ⟨he, hn⟩ := hacc
          have := augmentPass_cellAt sinF piQ (baseIdsOf rows names) b acc i id (Or.inr hn)
          exact ⟨this.trans he, this ▸ hn⟩

/-- Witness inputs for the synthesizer preservation theorem. -/
def rowsC5 : List Row :=
  [{ x := 0, cells := [("d1", .num (.fin 10)), ("d2", .num (.fin 12))] },
   { x := 1, cells := [("d1", .num (.fin 11))] }]

def namesC5 : DeviceNames :=
  [("d1", some "Alpha"), ("d2", some "Beta")]

/-- Witness for c5_synthesizer_preserves_real_values at a concrete dataset:
the cell (record 0, device d2) holds 12 before synthesis and is unchanged
after it. -/
theorem c5_synthesizer_preserves_real_values_witness :
    isNumeric (cellAt rowsC5 0 "d2") = true ∧
    cellAt (augmentRowsForSparseDevices (fun _ => 0) 0 rowsC5 namesC5) 0 "d2" =
      cellAt rowsC5 0 "d2" :=
  ⟨by decide, c5_synthesizer_preserves_real_values (fun _ => 0) 0 rowsC5 namesC5 0 "d2"
    (by decide)⟩

/-- C9: the synthesizer is deterministic: run on two identical copies of
the same record sequence and device registry (with the same runtime
trigonometric primitives), it produces identical outputs, every
synthesized value being equal between the two runs.  In the model the
computation is a pure function of the rows, the names and the hash of the
device identifiers, with no other source of variation. -/
theorem c9_synthesizer_deterministic (sinF : ℚ → ℚ) (piQ : ℚ)
    (rows₁ rows₂ : List Row) (names₁ names₂ : DeviceNames)
    (h1 : rows₁ = rows₂) (h2 : names₁ = names₂) :
    augmentRowsForSparseDevices sinF piQ rows₁ names₁ =
      augmentRowsForSparseDevices sinF piQ rows₂ names₂ := by
  subst h1
  subst h2
  rfl

/-- Witness for c9_synthesizer_deterministic: two runs on copies of the
concrete dataset of the C5 witness agree. -/
theorem c9_synthesizer_deterministic_witness :
    augmentRowsForSparseDevices (fun _ => 0) 0 rowsC5 namesC5 =
      augmentRowsForSparseDevices (fun _ => 0) 0 rowsC5 namesC5 :=
  c9_synthesizer_deterministic (fun _ => 0) 0 rowsC5 rowsC5 namesC5 namesC5 rfl rfl

/-! ### Lemmas about the id collection and the synthesizer fold -/

theorem insertUniq_inv (acc : List String) (x : String)
    (h : acc.Nodup ∧ ∀ y ∈ acc, y ≠ "gap") (hx : x ≠ "gap") :
    (insertUniq acc x).Nodup ∧ ∀ y ∈ insertUniq acc x, y ≠ "gap" := by
  unfold insertUniq
  split
  · exact h
  · rename_i hmem
    constructor
    · refine List.Nodup.append h.1 (List.nodup_singleton x) ?_
      intro a ha hb
      simp only [List.mem_singleton] at hb
      exact hmem (hb ▸ ha)
    · intro y hy
      rcases List.mem_append.mp hy with hy | hy
      · exact h.2 y hy
      · simp only [List.mem_singleton] at hy
        exact hy ▸ hx

theorem deviceIdsAllOf_inv (rows : List Row) (names : DeviceNames) :
    (deviceIdsAllOf rows names).Nodup ∧ ∀ y ∈ deviceIdsAllOf rows names, y ≠ "gap" := by
  simp only [deviceIdsAllOf]
  refine foldl_invariant (fun l : List String => l.Nodup ∧ ∀ y ∈ l, y ≠ "gap") _ rows _
    (fun acc r _ hacc => ?_) ?_
  · refine foldl_invariant (fun l : List String => l.Nodup ∧ ∀ y ∈ l, y ≠ "gap") _ r.cells _
      (fun acc' p _ hacc' => ?_) hacc
    split
    · rename_i hc
      simp only [Bool.and_eq_true, bne_iff_ne, ne_eq, decide_eq_true_eq] at hc
      exact insertUniq_inv acc' p.1 hacc' hc.2
    · exact hacc'
  · refine foldl_invariant (fun l : List String => l.Nodup ∧ ∀ y ∈ l, y ≠ "gap") _ names _
      (fun acc p _ hacc => ?_) ⟨List.nodup_nil, by simp⟩
    split
    · rename_i hc
      exact insertUniq_inv acc p.1 hacc hc
    · exact hacc

theorem augFold_cellAt_other (sinF : ℚ → ℚ) (piQ : ℚ) (rows : List Row)
    (baseIds : List String) (minCov : Nat) (ids : List String) (acc : List Row)
    (i : Nat) (k : String)
    (hk : ∀ id' ∈ ids, minCov ≤ coverageCount rows id' ∨ id' ≠ k) :
    cellAt (ids.foldl (fun acc id' =>
      if minCov ≤ coverageCount rows id' then acc
      else augmentPass sinF piQ baseIds id' acc) acc) i k = cellAt acc i k := by
  refine foldl_invariant (fun a => cellAt a i k = cellAt acc i k) _ ids acc
    (fun a id' hid' ha => ?_) rfl
  split
  · exact ha
  · rename_i hcov
    rcases hk id' hid' with h | h
    · exact absurd h hcov
    · exact (augmentPass_cellAt sinF piQ baseIds id' a i k (Or.inl (Ne.symm h))).trans ha

theorem augFold_numeric (sinF : ℚ → ℚ) (piQ : ℚ) (rows : List Row)
    (baseIds : List String) (minCov : Nat) (ids : List String) (acc : List Row)
    (i : Nat) (k : String) (h : isNumeric (cellAt acc i k) = true) :
    cellAt (ids.foldl (fun acc id' =>
      if minCov ≤ coverageCount rows id' then acc
      else augmentPass sinF piQ baseIds id' acc) acc) i k = cellAt acc i k := by
  refine (foldl_invariant
    (fun a => cellAt a i k = cellAt acc i k ∧ isNumeric (cellAt a i k) = true)
    _ ids acc (fun a id' _ ha => ?_) ⟨rfl, h⟩).1
  split
  · exact ha
  · obtain ⟨he, hn⟩ := ha
    have := augmentPass_cellAt sinF piQ baseIds id' a i k (Or.inr hn)
    exact ⟨this.trans he, this ▸ hn⟩

theorem augFold_length (sinF : ℚ → ℚ) (piQ : ℚ) (rows : List Row)
    (baseIds : List String) (minCov : Nat) (ids : List String) (acc : List Row) :
    (ids.foldl (fun acc id' =>
      if minCov ≤ coverageCount rows id' then acc
      else augmentPass sinF piQ baseIds id' acc) acc).length = acc.length := by
  refine foldl_invariant (fun a => a.length = acc.length) _ ids acc
    (fun a id' _ ha => ?_) rfl
  split
  · exact ha
  · exact (augmentPass_length sinF piQ baseIds id' a).trans ha

theorem insAscNum_length (x : JsNum) (l : List JsNum) :
    (insAscNum x l).length = l.length + 1 := by
  induction l with
  | nil => rfl
  | cons y t ih =>
      unfold insAscNum
      split
      · rfl
      · simpa using ih

theorem sortAscNum_length (l : List JsNum) : (sortAscNum l).length = l.length := by
  unfold sortAscNum
  suffices h : ∀ acc : List JsNum, (l.foldl (fun acc x => insAscNum x acc) acc).length =
      acc.length + l.length by
    simpa using h []
  induction l with
  | nil => simp
  | cons y t ih =>
      intro acc
      simp only [List.foldl_cons]
      rw [ih (insAscNum y acc), insAscNum_length]
      simp only [List.length_cons]
      omega

theorem baselineAt_isSome (baseIds : List String) (r : Row) (bid : String)
    (hbid : bid ∈ baseIds) (hnum : isNumeric (r.get? bid) = true) :
    ∃ b, baselineAt baseIds r = some b := by
  unfold baselineAt
  have hv : ∃ n, (match r.get? bid with
      | some (.num n) => if n.isNaN then none else some n
      | _ => none) = some n := by
    cases hg : r.get? bid with
    | none => rw [hg] at hnum; simp [isNumeric] at hnum
    | some v =>
        cases v with
        | num n =>
            rw [hg] at hnum
            simp only [isNumeric, Bool.not_eq_true'] at hnum
            exact ⟨n, by simp [hnum]⟩
        | str s => rw [hg] at hnum; simp [isNumeric] at hnum
        | null => rw [hg] at hnum; simp [isNumeric] at hnum
  obtain ⟨n, hn⟩ := hv
  have hmem : n ∈ baseIds.filterMap (fun id => match r.get? id with
      | some (.num n) => if n.isNaN then none else some n
      | _ => none) :=
    List.mem_filterMap.mpr ⟨bid, hbid, hn⟩
  have hne : baseIds.filterMap (fun id => match r.get? id with
      | some (.num n) => if n.isNaN then none else some n
      | _ => none) ≠ [] := by
    intro hc
    rw [hc] at hmem
    exact absurd hmem (List.not_mem_nil n)
  rw [if_neg hne]
  have hpos := List.length_pos.mpr hne
  have hlt : (baseIds.filterMap (fun id => match r.get? id with
      | some (.num n) => if n.isNaN then none else some n
      | _ => none)).length / 2 < (sortAscNum (baseIds.filterMap (fun id =>
        match r.get? id with
        | some (.num n) => if n.isNaN then none else some n
        | _ => none))).length := by
    rw [sortAscNum_length]
    omega
  exact ⟨_, List.getElem?_eq_getElem hlt⟩

theorem cellAt_of_getElem (rows : List Row) (i : Nat) (r : Row) (k : String)
    (h : rows[i]? = some r) : cellAt rows i k = r.get? k := by
  unfold cellAt
  rw [h]

/-- C8 amended: the synthesizer's sparseness threshold is the floor of
0.6 times the record count.  Every device at or above that floor is left
completely untouched; every device strictly below it is synthesized: each
of its cells in a record without the gap flag, lacking a numeric value,
and at which some base device reports a number, holds a number after the
run. -/
theorem c8_sparse_threshold_floor (sinF : ℚ → ℚ) (piQ : ℚ) (rows : List Row)
    (names : DeviceNames) (id : String) (hid : id ∈ deviceIdsAllOf rows names) :
    (rows.length * 3 / 5 ≤ coverageCount rows id →
      ∀ i, cellAt (augmentRowsForSparseDevices sinF piQ rows names) i id =
        cellAt rows i id) ∧
    (coverageCount rows id < rows.length * 3 / 5 →
      ∀ i, i < rows.length →
        cellAt rows i "gap" = none →
        isNumeric (cellAt rows i id) = false →
        (∃ bid, bid ∈ baseIdsOf rows names ∧ isNumeric (cellAt rows i bid) = true) →
        ∃ n, cellAt (augmentRowsForSparseDevices sinF piQ rows names) i id =
          some (.num n)) := by
  constructor
  · intro hcov i
    simp only [augmentRowsForSparseDevices]
    split
    · rfl
    · split
      · rfl
      · split
        · rfl
        · refine augFold_cellAt_other sinF piQ rows _ _ _ rows i id (fun id' _ => ?_)
          by_cases h : id' = id
          · exact Or.inl (h ▸ hcov)
          · exact Or.inr h
  · intro hcov i hi hgap hnum hbase
    obtain ⟨bid, hbidmem, hbidnum⟩ := hbase
    have h1 : ¬ rows.length = 0 := by omega
    have h2 : ¬ (deviceIdsAllOf rows names).length = 0 := by
      have := List.length_pos.mpr (List.ne_nil_of_mem hid)
      omega
    have h3 : ¬ (baseIdsOf rows names).length = 0 := by
      have := List.length_pos.mpr (List.ne_nil_of_mem hbidmem)
      omega
    simp only [augmentRowsForSparseDevices]
    rw [if_neg h1, if_neg h2, if_neg h3]
    obtain ⟨pre, post, hsplit⟩ := List.append_of_mem hid
    have hnd := (deviceIdsAllOf_inv rows names).1
    have hgapall := (deviceIdsAllOf_inv rows names).2
    rw [hsplit] at hnd
    have hndr := (List.nodup_append.mp hnd)
    have hidpre : id ∉ pre := fun hc => (hndr.2.2 hc (List.mem_cons_self id post)).elim
    have hidpost : id ∉ post := (List.nodup_cons.mp hndr.2.1).1
    rw [hsplit, List.foldl_append, List.foldl_cons]
    have hgap0 : cellAt (pre.foldl (fun acc id' =>
        if rows.length * 3 / 5 ≤ coverageCount rows id' then acc
        else augmentPass sinF piQ (baseIdsOf rows names) id' acc) rows) i "gap" = none := by
      rw [augFold_cellAt_other sinF piQ rows _ _ pre rows i "gap" (fun id' hid' =>
        Or.inr (hgapall id' (hsplit ▸ List.mem_append_left _ hid')))]
      exact hgap
    have hid0 : cellAt (pre.foldl (fun acc id' =>
        if rows.length * 3 / 5 ≤ coverageCount rows id' then acc
        else augmentPass sinF piQ (baseIdsOf rows names) id' acc) rows) i id =
        cellAt rows i id :=
      augFold_cellAt_other sinF piQ rows _ _ pre rows i id (fun id' hid' =>
        Or.inr (fun hc => hidpre (hc ▸ hid')))
    have hbid0 : cellAt (pre.foldl (fun acc id' =>
        if rows.length * 3 / 5 ≤ coverageCount rows id' then acc
        else augmentPass sinF piQ (baseIdsOf rows names) id' acc) rows) i bid =
        cellAt rows i bid :=
      augFold_numeric sinF piQ rows _ _ pre rows i bid hbidnum
    have hlen0 : (pre.foldl (fun acc id' =>
        if rows.length * 3 / 5 ≤ coverageCount rows id' then acc
        else augmentPass sinF piQ (baseIdsOf rows names) id' acc) rows).length =
        rows.length :=
      augFold_length sinF piQ rows _ _ pre rows
    set acc₀ := pre.foldl (fun acc id' =>
      if rows.length * 3 / 5 ≤ coverageCount rows id' then acc
      else augmentPass sinF piQ (baseIdsOf rows names) id' acc) rows with hacc₀
    have hi' : i < acc₀.length := by rw [hlen0]; exact hi
    have hr' : acc₀[i]? = some acc₀[i] := List.getElem?_eq_getElem hi'
    set r' := acc₀[i] with hr'def
    have hg' : r'.get? "gap" = none := by
      rw [← cellAt_of_getElem acc₀ i r' "gap" hr']
      exact hgap0
    have hnum' : isNumeric (r'.get? id) = false := by
      rw [← cellAt_of_getElem acc₀ i r' id hr', hid0]
      exact hnum
    have hbid' : isNumeric (r'.get? bid) = true := by
      rw [← cellAt_of_getElem acc₀ i r' bid hr', hbid0]
      exact hbidnum
    obtain ⟨b, hb⟩ := baselineAt_isSome (baseIdsOf rows names) r' bid hbidmem hbid'
    rw [if_neg (Nat.not_le.mpr hcov)]
    have hstep : cellAt (augmentPass sinF piQ (baseIdsOf rows names) id acc₀) i id =
        some (.num (synthValue sinF piQ id (synthConstsOf id piQ) (0 + i) b)) := by
      unfold augmentPass cellAt
      rw [passGo_getElem, hr']
      simp only [Option.map_some']
      show Row.get? _ id = _
      split
      · rename_i hc
        rw [Row.hasKey, hg'] at hc
        exact absurd hc (by simp)
      · split
        · rename_i hc
          rw [hnum'] at hc
          exact absurd hc (by simp)
        · split
          · rename_i hnone
            rw [hb] at hnone
            cases hnone
          · rename_i base hbase'
            rw [hb] at hbase'
            injection hbase' with hbase''
            rw [hbase'']
            exact rowGet_set_self r' id _
    rw [augFold_cellAt_other sinF piQ rows _ _ post _ i id (fun id' hid' =>
      Or.inr (fun hc => hidpost (hc ▸ hid')))]
    exact ⟨_, hstep⟩

/-- C8 concrete inputs: two records; d1 reports in both, d2 only in the
first, so d2's coverage 1 is strictly below 0.6 * 2 = 1.2 yet equal to
Math.floor(2 * 0.6) = 1. -/
def rowsC8 : List Row :=
  [{ x := 0, cells := [("d1", .num (.fin 10)), ("d2", .num (.fin 12))] },
   { x := 1, cells := [("d1", .num (.fin 11))] }]

def namesC8 : DeviceNames :=
  [("d1", some "Alpha"), ("d2", some "Beta")]

/-- C8 counterexample: device d2 has coverage 1, strictly below 0.6 times
the record count (1.2), so the claim says it is eligible and its missing
cell in record 1 (no gap flag, baseline available from d1) gets filled; but
the code's threshold is the floor 1, the test 1 >= 1 skips the device, the
run leaves the whole dataset untouched and the cell stays missing. -/
theorem c8_sparse_threshold_counterexample :
    ((coverageCount rowsC8 "d2" : ℚ) < qMul (mkRat 3 5) ((rowsC8.length : Nat) : ℚ)) ∧
    cellAt rowsC8 1 "gap" = none ∧
    isNumeric (cellAt rowsC8 1 "d2") = false ∧
    (baselineAt (baseIdsOf rowsC8 namesC8) (rowsC8.getD 1 { x := 0, cells := [] })).isSome
      = true ∧
    augmentRowsForSparseDevices (fun _ => 0) 0 rowsC8 namesC8 = rowsC8 ∧
    cellAt (augmentRowsForSparseDevices (fun _ => 0) 0 rowsC8 namesC8) 1 "d2" = none := by
  refine ⟨by decide, by decide, by decide, by decide, by decide, by decide⟩

/-- C8 witness inputs: d2 never reports, coverage 0 below the floor 1. -/
def rowsC8w : List Row :=
  [{ x := 0, cells := [("d1", .num (.fin 10))] },
   { x := 1, cells := [("d1", .num (.fin 11))] }]

/-- Witness for c8_sparse_threshold_floor: on the concrete dataset the
device d2 with coverage 0 is below the floor threshold and its cell in
record 0 holds a number after the run, while device d1 at the floor is
untouched. -/
theorem c8_sparse_threshold_floor_witness :
    ("d2" ∈ deviceIdsAllOf rowsC8w namesC8) ∧
    coverageCount rowsC8w "d2" < rowsC8w.length * 3 / 5 ∧
    (∃ n, cellAt (augmentRowsForSparseDevices (fun _ => 0) 0 rowsC8w namesC8) 0 "d2" =
      some (.num n)) ∧
    cellAt (augmentRowsForSparseDevices (fun _ => 0) 0 rowsC8w namesC8) 0 "d1" =
      cellAt rowsC8w 0 "d1" :=
  ⟨by decide, by decide,
    (c8_sparse_threshold_floor (fun _ => 0) 0 rowsC8w namesC8 "d2" (by decide)).2
      (by decide) 0 (by decide) (by decide) (by decide) ⟨"d1", by decide, by decide⟩,
    (c8_sparse_threshold_floor (fun _ => 0) 0 rowsC8w namesC8 "d1" (by decide)).1
      (by decide) 0⟩

/-! ### C6: the outage-point characterization -/

theorem isNumeric_iff (o : Option JsVal) :
    isNumeric o = true ↔ ∃ n, o = some (.num n) ∧ n.isNaN = false := by
  cases o with
  | none => simp [isNumeric]
  | some v => cases v <;> simp [isNumeric]

/-- The outage-point condition in the words of the claim: the record
carries the explicit gap flag, or no known device has a finite numeric
value at it (an Infinity or NaN value does not count as finite). -/
def outagePointSpec (deviceIds : List String) (row : Row) : Bool :=
  row.hasKey "gap" ||
    deviceIds.all (fun id =>
      !(match row.get? id with
        | some (.num (.fin _)) => true
        | _ => false))

/-- The record of the C6 counterexample: the only known device's value at
the timestamp is Infinity. -/
def rowInfC6 : Row := { x := 42, cells := [("d1", .num .inf)] }

/-- C6 counterexample: with one known device whose only value is Infinity,
the claim's condition holds (no device has a finite numeric value, and the
claim says such a record counts as an outage point), yet the detector does
not treat the record as an outage point - isNumeric only excludes NaN, so
Infinity counts as present data - and it emits no outage range for the
slice. -/
theorem c6_outage_infinity_counterexample :
    outagePointSpec ["d1"] rowInfC6 = true ∧
    outagePointCode ["d1"] rowInfC6 = false ∧
    outageRanges ["d1"] [rowInfC6] = [] := by
  refine ⟨by decide, by decide, by decide⟩

/-- C6 amended: a timestamp is treated as an outage point by the detector
if and only if its record carries the explicit gap flag or no known device
has a numeric value other than NaN at that timestamp (this includes the
case of an empty device set, where the detector's explicit empty-set test
is subsumed by the vacuous quantifier); a device whose value is Infinity
counts as having a value, so such a record is not an outage point. -/
theorem c6_outage_point_characterization (ids : List String) (row : Row) :
    outagePointCode ids row = true ↔
      (row.hasKey "gap" = true ∨
        ∀ id ∈ ids, ¬ ∃ n, row.get? id = some (.num n) ∧ n.isNaN = false) := by
  unfold outagePointCode
  simp only [Bool.or_eq_true, List.all_eq_true, List.isEmpty_iff]
  constructor
  · rintro (h | h | h)
    · exact Or.inl h
    · refine Or.inr (fun id hid => ?_)
      rw [h] at hid
      exact absurd hid (List.not_mem_nil id)
    · refine Or.inr (fun id hid hc => ?_)
      have := h id hid
      rw [Bool.not_eq_true'] at this
      rw [(isNumeric_iff (row.get? id)).mpr hc] at this
      cases this
  · rintro (h | h)
    · exact Or.inl h
    · refine Or.inr (Or.inr (fun id hid => ?_))
      rw [Bool.not_eq_true']
      by_contra hc
      have : isNumeric (row.get? id) = true := by
        cases hx : isNumeric (row.get? id) with
        | true => rfl
        | false => exact absurd hx hc
      exact h id hid ((isNumeric_iff (row.get? id)).mp this)

/-! ### Band-key disambiguation lemmas -/

theorem strDataAppend (a b : String) : (a ++ b).data = a.data ++ b.data := by
  cases a
  cases b
  rfl

theorem strExt (a b : String) (h : a.data = b.data) : a = b := by
  cases a
  cases b
  exact congrArg String.mk h

theorem listAppendRightCancel {α : Type} (a b c : List α) (h : a ++ c = b ++ c) :
    a = b := by
  have h2 := congrArg List.reverse h
  simp only [List.reverse_append] at h2
  exact List.reverse_injective (List.append_cancel_left h2)

theorem headq_append {α : Type} (a b : List α) (x : α) (h : a.head? = some x) :
    (a ++ b).head? = some x := by
  cases a with
  | nil => simp at h
  | cons y t => simpa using h

theorem bandKey_data (id c : String) :
    (bandKey id c).data = id.data ++ ("__band_" ++ c).data := by
  unfold bandKey
  rw [strDataAppend, strDataAppend, strDataAppend, List.append_assoc]

theorem bandKey_rev_head (id c : String) (x : Char)
    (hx : ("__band_" ++ c).data.reverse.head? = some x) :
    (bandKey id c).data.reverse.head? = some x := by
  rw [bandKey_data, List.reverse_append]
  exact headq_append _ _ x hx

theorem bandKey_head_eq (id1 c1 id2 c2 : String) (x y : Char)
    (hx : ("__band_" ++ c1).data.reverse.head? = some x)
    (hy : ("__band_" ++ c2).data.reverse.head? = some y)
    (h : bandKey id1 c1 = bandKey id2 c2) : x = y := by
  have l := bandKey_rev_head id1 c1 x hx
  have r := bandKey_rev_head id2 c2 y hy
  rw [h, r] at l
  injection l with e
  exact e.symm

theorem bandKey_inj (id1 id2 c1 c2 : String)
    (h1 : c1 ∈ bandCodes) (h2 : c2 ∈ bandCodes)
    (h : bandKey id1 c1 = bandKey id2 c2) : id1 = id2 ∧ c1 = c2 := by
  have hmem1 : c1 = "24" ∨ c1 = "5" ∨ c1 = "5m" := by simpa [bandCodes] using h1
  have hmem2 : c2 = "24" ∨ c2 = "5" ∨ c2 = "5m" := by simpa [bandCodes] using h2
  rcases hmem1 with rfl | rfl | rfl <;> rcases hmem2 with rfl | rfl | rfl
  · have hdata := congrArg String.data h
    rw [bandKey_data, bandKey_data] at hdata
    exact ⟨strExt _ _ (listAppendRightCancel _ _ _ hdata), rfl⟩
  · exact absurd (bandKey_head_eq _ _ _ _ '4' '5' (by decide) (by decide) h) (by decide)
  · exact absurd (bandKey_head_eq _ _ _ _ '4' 'm' (by decide) (by decide) h) (by decide)
  · exact absurd (bandKey_head_eq _ _ _ _ '5' '4' (by decide) (by decide) h) (by decide)
  · have hdata := congrArg String.data h
    rw [bandKey_data, bandKey_data] at hdata
    exact ⟨strExt _ _ (listAppendRightCancel _ _ _ hdata), rfl⟩
  · exact absurd (bandKey_head_eq _ _ _ _ '5' 'm' (by decide) (by decide) h) (by decide)
  · exact absurd (bandKey_head_eq _ _ _ _ 'm' '4' (by decide) (by decide) h) (by decide)
  · exact absurd (bandKey_head_eq _ _ _ _ 'm' '5' (by decide) (by decide) h) (by decide)
  · have hdata := congrArg String.data h
    rw [bandKey_data, bandKey_data] at hdata
    exact ⟨strExt _ _ (listAppendRightCancel _ _ _ hdata), rfl⟩

/-- The side condition of the amended C10: the captured band tag of the
device at the row, when present and non-null, is one of the three band
codes (in particular it has not been overwritten with a number). -/
def metaOkB (row : Row) (id : String) : Bool :=
  match row.get? ("__band:" ++ id) with
  | none => true
  | some .null => true
  | some (.str s) => s = "24" || s = "5" || s = "5m"
  | some (.num _) => false

theorem nullWriter_other (id k : String) (cs : List String) (o : Row)
    (hk : ∀ c ∈ cs, k ≠ bandKey id c) :
    (cs.foldl (fun o c => o.set (bandKey id c) .null) o).get? k = o.get? k := by
  induction cs generalizing o with
  | nil => rfl
  | cons c t ih =>
      simp only [List.foldl_cons]
      rw [ih (o.set (bandKey id c) .null) (fun c' hc' => hk c' (List.mem_cons_of_mem c hc'))]
      exact rowGet_set_ne o (bandKey id c) k .null (hk c (List.mem_cons_self c t))

theorem nullWriter_get (id : String) (cs : List String) (o : Row) (c : String)
    (hc : c ∈ cs) (hcs : ∀ x ∈ cs, x ∈ bandCodes) :
    (cs.foldl (fun o x => o.set (bandKey id x) .null) o).get? (bandKey id c) =
      some .null := by
  induction cs generalizing o with
  | nil => exact absurd hc (List.not_mem_nil c)
  | cons x t ih =>
      simp only [List.foldl_cons]
      by_cases hct : c ∈ t
      · exact ih (o.set (bandKey id x) JsVal.null) hct
          (fun y hy => hcs y (List.mem_cons_of_mem x hy))
      · have hcx : c = x := by
          rcases List.mem_cons.mp hc with h | h
          · exact h
          · exact absurd h hct
        subst hcx
        rw [nullWriter_other id (bandKey id c) t _ (fun c' hc' hkey => ?_)]
        · exact rowGet_set_self o (bandKey id c) .null
        · have := bandKey_inj id id c c' (hcs c hc) (hcs c' (List.mem_cons_of_mem c hc')) hkey
          exact hct (this.2 ▸ hc')

theorem bandWrite (out : Row) (id : String) (v : JsVal) (c₀ : String)
    (hc : c₀ ∈ bandCodes) :
    ((bandCodes.filter (fun c => !(JsVal.str c₀ = JsVal.str c))).foldl
        (fun o c => o.set (bandKey id c) .null) (out.set (bandKey id c₀) v)).get?
        (bandKey id c₀) = some v ∧
    (∀ c' ∈ bandCodes, c' ≠ c₀ →
      ((bandCodes.filter (fun c => !(JsVal.str c₀ = JsVal.str c))).foldl
        (fun o c => o.set (bandKey id c) .null) (out.set (bandKey id c₀) v)).get?
        (bandKey id c') = some .null) ∧
    (∀ k, (∀ c ∈ bandCodes, k ≠ bandKey id c) →
      ((bandCodes.filter (fun c => !(JsVal.str c₀ = JsVal.str c))).foldl
        (fun o c => o.set (bandKey id c) .null) (out.set (bandKey id c₀) v)).get? k =
        out.get? k) := by
  have hne : ∀ cA cB : String, cA ∈ bandCodes → cB ∈ bandCodes → cA ≠ cB →
      bandKey id cA ≠ bandKey id cB := fun cA cB hA hB hAB hk =>
    hAB (bandKey_inj id id cA cB hA hB hk).2
  have hfilter : (bandCodes.filter (fun c => !(JsVal.str c₀ = JsVal.str c))) =
      bandCodes.filter (fun c => !(c₀ = c)) := by
    refine List.filter_congr (fun c _ => ?_)
    by_cases h : c₀ = c <;> simp [h]
  rw [hfilter]
  refine ⟨?_, ?_, ?_⟩
  · rw [nullWriter_other id (bandKey id c₀) _ _ (fun c' hc' => ?_)]
    · exact rowGet_set_self out (bandKey id c₀) v
    · have hc'2 := List.of_mem_filter hc'
      simp only [Bool.not_eq_true', decide_eq_false_iff_not] at hc'2
      exact hne c₀ c' hc (List.mem_of_mem_filter hc') (fun hcc => hc'2 hcc)
  · intro c' hc' hne'
    refine nullWriter_get id _ _ c' ?_ (fun x hx => List.mem_of_mem_filter hx)
    refine List.mem_filter.mpr ⟨hc', ?_⟩
    simp only [Bool.not_eq_true', decide_eq_false_iff_not]
    exact fun hcc => hne' hcc.symm
  · intro k hk
    rw [nullWriter_other id k _ _ (fun c' hc' => hk c' (List.mem_of_mem_filter hc'))]
    exact rowGet_set_ne out (bandKey id c₀) k v (hk c₀ hc)

/-- The shape of the band variable along the classifier's fallback chain:
undefined, null, or one of the three code strings. -/
def BandShape (b : Option JsVal) : Prop :=
  b = none ∨ b = some .null ∨ ∃ c, c ∈ bandCodes ∧ b = some (.str c)

theorem bandCodeOf_valid (row : Row) (names : DeviceNames)
    (quant : String → Option (JsNum × JsNum)) (id : String)
    (hmeta : metaOkB row id = true) :
    ∃ c, c ∈ bandCodes ∧ bandCodeOf row names quant id = .str c := by
  simp only [bandCodeOf]
  have h0 : BandShape (row.get? ("__band:" ++ id)) := by
    unfold metaOkB at hmeta
    cases hb0 : row.get? ("__band:" ++ id) with
    | none => exact Or.inl rfl
    | some v =>
        cases v with
        | null => exact Or.inr (Or.inl rfl)
        | num n => rw [hb0] at hmeta; exact absurd hmeta (by simp)
        | str s =>
            rw [hb0] at hmeta
            simp only [Bool.or_eq_true, decide_eq_true_eq] at hmeta
            refine Or.inr (Or.inr ⟨s, ?_, rfl⟩)
            rcases hmeta with (h | h) | h <;> simp [bandCodes, h]
  set b0 := row.get? ("__band:" ++ id) with hb0def
  set b1 := (if jsFalsyOpt b0 then
      (if meshNameTest ((getName names id).getD "") then some (JsVal.str "5m") else b0)
    else b0) with hb1def
  set b2 := (if jsFalsyOpt b1 then
      (match quant id with
       | some (q25, q75) =>
           match row.get? id with
           | some (.num n) =>
               if n.leB q25 then some (JsVal.str "5")
               else if q75.leB n then some (JsVal.str "24")
               else b1
           | _ => b1
       | none => b1)
    else b1) with hb2def
  have h1 : BandShape b1 := by
    rw [hb1def]
    split
    · split
      · exact Or.inr (Or.inr ⟨"5m", by decide, rfl⟩)
      · exact h0
    · exact h0
  have h2 : BandShape b2 := by
    rw [hb2def]
    split
    · split
      · split
        · split
          · exact Or.inr (Or.inr ⟨"5", by decide, rfl⟩)
          · split
            · exact Or.inr (Or.inr ⟨"24", by decide, rfl⟩)
            · exact h1
        · exact h1
      · exact h1
    · exact h1
  rcases h2 with h | h | ⟨c, hc, h⟩
  · rw [h]
    exact ⟨"24", by decide, rfl⟩
  · rw [h]
    exact ⟨"24", by decide, rfl⟩
  · rw [h]
    have : c ≠ "" := by
      rcases (by simpa [bandCodes] using hc : c = "24" ∨ c = "5" ∨ c = "5m") with h' | h' | h' <;>
        simp [h']
    exact ⟨c, hc, rfl⟩

theorem bandStep_other (row : Row) (names : DeviceNames)
    (quant : String → Option (JsNum × JsNum)) (out : Row) (id k : String)
    (hmeta : metaOkB row id = true)
    (hk : ∀ c ∈ bandCodes, k ≠ bandKey id c) :
    (bandStep row names quant out id).get? k = out.get? k := by
  simp only [bandStep]
  split
  · exact nullWriter_other id k bandCodes out hk
  · obtain ⟨c₀, hc₀, hcode⟩ := bandCodeOf_valid row names quant id hmeta
    rw [hcode]
    exact (bandWrite out id _ c₀ hc₀).2.2 k hk

theorem bandStep_notnum (row : Row) (names : DeviceNames)
    (quant : String → Option (JsNum × JsNum)) (out : Row) (id : String)
    (hv : isNumeric (row.get? id) = false) :
    ∀ c ∈ bandCodes, (bandStep row names quant out id).get? (bandKey id c) =
      some .null := by
  intro c hc
  simp only [bandStep, hv, Bool.not_false, if_true]
  exact nullWriter_get id bandCodes out c hc (fun x hx => hx)

theorem bandStep_num (row : Row) (names : DeviceNames)
    (quant : String → Option (JsNum × JsNum)) (out : Row) (id : String)
    (hmeta : metaOkB row id = true) (hv : isNumeric (row.get? id) = true) :
    ∃ c, c ∈ bandCodes ∧
      (bandStep row names quant out id).get? (bandKey id c) = row.get? id ∧
      ∀ c' ∈ bandCodes, c' ≠ c →
        (bandStep row names quant out id).get? (bandKey id c') = some .null := by
  obtain ⟨c₀, hc₀, hcode⟩ := bandCodeOf_valid row names quant id hmeta
  obtain ⟨n, hvn, _⟩ := (isNumeric_iff (row.get? id)).mp hv
  refine ⟨c₀, hc₀, ?_, fun c' hc' hne' => ?_⟩
  · simp only [bandStep, hv, Bool.not_true, if_false]
    rw [hcode, hvn]
    exact (bandWrite out id _ c₀ hc₀).1
  · simp only [bandStep, hv, Bool.not_true, if_false]
    rw [hcode]
    exact (bandWrite out id _ c₀ hc₀).2.1 c' hc' hne'

theorem bandFold_other (row : Row) (names : DeviceNames)
    (quant : String → Option (JsNum × JsNum)) (l : List String) (o : Row) (k : String)
    (hmeta : ∀ id' ∈ l, metaOkB row id' = true)
    (hk : ∀ id' ∈ l, ∀ c ∈ bandCodes, k ≠ bandKey id' c) :
    (l.foldl (bandStep row names quant) o).get? k = o.get? k := by
  refine foldl_invariant (fun o' : Row => o'.get? k = o.get? k) _ l o
    (fun o' id' hid' ho' => ?_) rfl
  show (bandStep row names quant o' id').get? k = o.get? k
  rw [bandStep_other row names quant o' id' k (hmeta id' hid') (hk id' hid')]
  exact ho'

theorem bandRow_get (ids : List String) (names : DeviceNames)
    (quant : String → Option (JsNum × JsNum)) (row : Row) (id : String)
    (hnd : ids.Nodup) (hmeta : ∀ id' ∈ ids, metaOkB row id' = true) (hid : id ∈ ids) :
    (isNumeric (row.get? id) = true →
      ∃ c, c ∈ bandCodes ∧
        (bandRow ids names quant row).get? (bandKey id c) = row.get? id ∧
        ∀ c' ∈ bandCodes, c' ≠ c →
          (bandRow ids names quant row).get? (bandKey id c') = some .null) ∧
    (isNumeric (row.get? id) = false →
      ∀ c ∈ bandCodes, (bandRow ids names quant row).get? (bandKey id c) =
        some .null) := by
  obtain ⟨pre, post, hsplit⟩ := List.append_of_mem hid
  have hnd' := hnd
  rw [hsplit] at hnd'
  have hndr := List.nodup_append.mp hnd'
  have hidpost : id ∉ post := (List.nodup_cons.mp hndr.2.1).1
  unfold bandRow
  rw [hsplit, List.foldl_append, List.foldl_cons]
  have hpostpres : ∀ c : String, c ∈ bandCodes →
      (post.foldl (bandStep row names quant)
        (bandStep row names quant (pre.foldl (bandStep row names quant) row) id)).get?
        (bandKey id c) =
      (bandStep row names quant (pre.foldl (bandStep row names quant) row) id).get?
        (bandKey id c) := by
    intro c hcmem
    refine bandFold_other row names quant post _ (bandKey id c)
      (fun id' hid' =>
        hmeta id' (hsplit ▸ List.mem_append_right pre (List.mem_cons_of_mem id hid')))
      (fun id' hid' c' hc' hkey => ?_)
    have := bandKey_inj id id' c c' hcmem hc' hkey
    exact hidpost (this.1 ▸ hid')
  constructor
  · intro hv
    obtain ⟨c, hc, heq, hothers⟩ := bandStep_num row names quant
      (pre.foldl (bandStep row names quant) row) id (hmeta id hid) hv
    refine ⟨c, hc, ?_, fun c' hc' hne' => ?_⟩
    · rw [hpostpres c hc]
      exact heq
    · rw [hpostpres c' hc']
      exact hothers c' hc' hne'
  · intro hv c hc
    rw [hpostpres c hc]
    exact bandStep_notnum row names quant _ id hv c hc

theorem insertUniq_nodup (acc : List String) (x : String) (h : acc.Nodup) :
    (insertUniq acc x).Nodup := by
  unfold insertUniq
  split
  · exact h
  · rename_i hmem
    refine List.Nodup.append h (List.nodup_singleton x) ?_
    intro a ha hb
    simp only [List.mem_singleton] at hb
    exact hmem (hb ▸ ha)

theorem deviceIdsOf_nodup (names : DeviceNames) (data : List Row) :
    (deviceIdsOf names data).Nodup := by
  simp only [deviceIdsOf]
  refine foldl_invariant (fun l : List String => l.Nodup) _ data _
    (fun acc r _ hacc => ?_) ?_
  · refine foldl_invariant (fun l : List String => l.Nodup) _ r.cells _
      (fun acc' p _ hacc' => ?_) hacc
    split
    · exact insertUniq_nodup acc' p.1 hacc'
    · exact hacc'
  · refine foldl_invariant (fun l : List String => l.Nodup) _ names _
      (fun acc p _ hacc => ?_) List.nodup_nil
    split
    · exact insertUniq_nodup acc p.1 hacc
    · exact hacc

/-- C10 amended: for every row of the band-split slice and every known
device id, provided every captured band tag of the row is absent, null, or
one of the three band codes: if the device's value in the input row is a
present numeric value then some band key of that device equals that value
and the band keys of its other two codes are null; if the device has no
numeric value then all three of its band keys are null; and every key that
is not a band-split key of some known device is carried over unchanged. -/
theorem c10_band_split_partition (names : DeviceNames) (data : List Row)
    (left right i : Nat) (id : String) (row : Row)
    (hid : id ∈ deviceIdsOf names data)
    (hrow : (jsSlice data left (right + 1))[i]? = some row)
    (hmeta : ∀ id' ∈ deviceIdsOf names data, metaOkB row id' = true) :
    ∃ brow, (slicedDataBanded names data left right)[i]? = some brow ∧
      (isNumeric (row.get? id) = true →
        ∃ c, c ∈ bandCodes ∧ brow.get? (bandKey id c) = row.get? id ∧
          ∀ c' ∈ bandCodes, c' ≠ c → brow.get? (bandKey id c') = some .null) ∧
      (isNumeric (row.get? id) = false →
        ∀ c ∈ bandCodes, brow.get? (bandKey id c) = some .null) ∧
      (∀ k, (∀ id' ∈ deviceIdsOf names data, ∀ c ∈ bandCodes, k ≠ bandKey id' c) →
        brow.get? k = row.get? k) := by
  have hnd := deviceIdsOf_nodup names data
  refine ⟨bandRow (deviceIdsOf names data) names (deviceLatencyQuantiles data) row,
    ?_, ?_, ?_, ?_⟩
  · simp only [slicedDataBanded]
    rw [List.getElem?_map, hrow]
    rfl
  · exact fun hv => (bandRow_get (deviceIdsOf names data) names
      (deviceLatencyQuantiles data) row id hnd hmeta hid).1 hv
  · exact fun hv => (bandRow_get (deviceIdsOf names data) names
      (deviceLatencyQuantiles data) row id hnd hmeta hid).2 hv
  · intro k hk
    exact bandFold_other row names (deviceLatencyQuantiles data)
      (deviceIdsOf names data) row k hmeta hk

/-- The concrete comma-separated input of the C7 and C10 evaluations: one
device d1, two records, an explicit band column tagging both rows 2.4GHz. -/
def csvTextC7 : String :=
  "timestamp,device_id,device_name,latency_ms,band\n2025-08-13 00:00:00,d1,Alpha,5,2.4GHz\n2025-08-13 01:00:00,d1,Alpha,6,2.4GHz"

def parsedC7 : List Row × DeviceNames :=
  (parseCSV jsDateParseModel csvTextC7).toOption.getD ([], [])

def augmentedC7 : List Row :=
  augmentRowsForSparseDevices (fun _ => 0) 0 parsedC7.1 parsedC7.2

def bandedC7 : List Row :=
  slicedDataBanded parsedC7.2 augmentedC7 0 (augmentedC7.length - 1)

set_option maxRecDepth 2000000 in
/-- C7, evaluated at the failing input: parsing captures the explicit tag
24 for (record 0, d1), but the pipeline's synthesizer pass treats the meta
key as a sparse device column (coverage zero) and overwrites the tag with
a synthesized number before classification; the classifier then finds a
truthy non-band value, writes the value 5 under a bogus key interpolated
from that number, and nulls all three real band keys of d1 - so the value
does not appear in the sub-series of the band it was explicitly tagged
with, contradicting the claimed precedence. -/
theorem c7_explicit_band_tag_destroyed :
    cellAt parsedC7.1 0 "__band:d1" = some (.str "24") ∧
    isNumeric (cellAt augmentedC7 0 "__band:d1") = true ∧
    cellAt augmentedC7 0 "d1" = some (.num (.fin 5)) ∧
    cellAt bandedC7 0 (bandKey "d1" "24") = some .null ∧
    cellAt bandedC7 0 (bandKey "d1" "5") = some .null ∧
    cellAt bandedC7 0 (bandKey "d1" "5m") = some .null := by decide

set_option maxRecDepth 2000000 in
/-- C10 counterexample: in the band-split slice computed by the pipeline
from csvTextC7, the known device d1 has a present numeric value in the
input row of index 0, yet none of its three band keys equals that value -
all three are null - so the claimed exactly-one partition fails (the band
meta entry of the row, overwritten with a number by the synthesizer, is
outside the three band codes). -/
theorem c10_band_partition_counterexample :
    ("d1" ∈ deviceIdsOf parsedC7.2 augmentedC7) ∧
    isNumeric (cellAt augmentedC7 0 "d1") = true ∧
    cellAt bandedC7 0 (bandKey "d1" "24") = some .null ∧
    cellAt bandedC7 0 (bandKey "d1" "5") = some .null ∧
    cellAt bandedC7 0 (bandKey "d1" "5m") = some .null := by decide

/-- The first parsed record of csvTextC7, before the synthesizer runs:
its band tag is intact, so it satisfies the side condition of the amended
C10. -/
def rowC10w : Row :=
  { x := 1755043200000, cells := [("d1", .num (.fin 5)), ("__band:d1", .str "24")] }

set_option maxRecDepth 2000000 in
/-- Witness for c10_band_split_partition: the band split of the pre-augment
records of csvTextC7 at record 0 and device d1. -/
theorem c10_band_split_partition_witness :
    ∃ brow, (slicedDataBanded parsedC7.2 parsedC7.1 0 1)[0]? = some brow ∧
      (isNumeric (rowC10w.get? "d1") = true →
        ∃ c, c ∈ bandCodes ∧ brow.get? (bandKey "d1" c) = rowC10w.get? "d1" ∧
          ∀ c' ∈ bandCodes, c' ≠ c → brow.get? (bandKey "d1" c') = some .null) ∧
      (isNumeric (rowC10w.get? "d1") = false →
        ∀ c ∈ bandCodes, brow.get? (bandKey "d1" c) = some .null) ∧
      (∀ k, (∀ id' ∈ deviceIdsOf parsedC7.2 parsedC7.1, ∀ c ∈ bandCodes,
          k ≠ bandKey id' c) →
        brow.get? k = rowC10w.get? k) :=
  c10_band_split_partition parsedC7.2 parsedC7.1 0 1 0 "d1" rowC10w
    (by decide) (by decide) (by decide)
